import Mathlib

/-!
Verification of `launch_config_validator` (src/launch_config_validator/validate_launch_config.py).

This file shallowly embeds the validator's data model and operations in Lean 4.
External effects (the filesystem, `yaml.load` on file contents, the optional
`ament_index_python` package-index capability, `jsonschema` validation, and the
local-workspace package discovery `_find_local_package_path`) are modelled as an
explicit environment record that each embedded function consumes; the embedded
functions themselves follow the Python source line by line.

Conventions:
* Python `pathlib.Path` is modelled by `PPath` (an absolute flag plus the list
  of path segments, `'.'`-segments and empty segments dropped as `pathlib` does
  at construction time).  `Path.resolve()` is modelled lexically
  (symlink-free), relative paths being anchored at the environment's `cwd`.
* YAML documents are modelled by `YVal`; mapping keys are strings (every key
  occurring in the validated documents and in the claims is a string scalar).
* `difflib.SequenceMatcher(None, a, b).ratio()` is computed exactly over `Rat`
  (the Python floats `2.0*M/T` and the `0.5` threshold compare identically to
  their rational values for every feasible file-name length).
* Python `\s` / `str.strip()` whitespace is modelled by the six ASCII
  whitespace characters.
-/

set_option autoImplicit false

namespace LCV

/-- The apostrophe character, used when reproducing Python `repr`-style
messages such as `found duplicate key ('a')`. -/
def sq : String := String.mk [Char.ofNat 39]

/-- Python `\s` (ASCII fragment): space, tab, newline, carriage return,
vertical tab, form feed. -/
def isSpaceChar (c : Char) : Bool :=
  c = ' ' || c = '\t' || c = '\n' || c = '\r' || c = Char.ofNat 11 || c = Char.ofNat 12

/-- `[A-Za-z0-9_-]`, the character class of `SUBSTITUTION_RE`. -/
def isNameChar (c : Char) : Bool :=
  c.isAlphanum || c = '_' || c = '-'

/-- Python `str.strip()` (ASCII whitespace). -/
def trimChars (cs : List Char) : List Char :=
  ((cs.dropWhile isSpaceChar).reverse.dropWhile isSpaceChar).reverse

/-- Does `hay` start with `needle`? -/
def startsWithChars : List Char → List Char → Bool
  | [], _ => true
  | _ :: _, [] => false
  | a :: as, b :: bs => a = b && startsWithChars as bs

/-- Python `needle in hay` on strings (substring containment). -/
def containsChars (hay needle : List Char) : Bool :=
  startsWithChars needle hay ||
    match hay with
    | [] => false
    | _ :: t => containsChars t needle

/-- Python `needle in hay` for `String`s. -/
def strContains (hay needle : String) : Bool :=
  containsChars hay.data needle.data

/-- Match a literal character list at the front, returning the remainder. -/
def dropLit : List Char → List Char → Option (List Char)
  | [], cs => some cs
  | l :: ls, cs =>
    match cs with
    | [] => none
    | c :: cs' => if c = l then dropLit ls cs' else none

/-- Does `hay` end with `needle`? -/
def endsWithChars (needle hay : List Char) : Bool :=
  startsWithChars needle.reverse hay.reverse

/-- Python `str.split('/')`: the segments between slashes, empty segments
included. -/
def splitSlashAux (cur : List Char) : List Char → List String
  | [] => [String.mk cur.reverse]
  | c :: rest =>
    if c = '/' then String.mk cur.reverse :: splitSlashAux [] rest
    else splitSlashAux (c :: cur) rest

/-- Python `str.lower()` (ASCII as used on file names). -/
def lowerStr (s : String) : String := String.mk (s.data.map Char.toLower)

/-! ## Paths (`pathlib.Path` model) -/

/-- A `pathlib.Path`: absolute flag plus segments (no `'.'` or empty
segments — `pathlib` normalises those away at construction). -/
structure PPath where
  isAbs : Bool
  segs : List String
deriving DecidableEq, Repr

/-- `Path.parent` (the parent of `'/'` is `'/'`, the parent of `'.'` is `'.'`). -/
def PPath.parent (p : PPath) : PPath := ⟨p.isAbs, p.segs.dropLast⟩

/-- `Path.name` (empty for `'/'` and `'.'`). -/
def PPath.name (p : PPath) : String := (p.segs.getLast?).getD ""

/-- `Path(child_name)` appended to a directory, as produced by `iterdir`. -/
def childPath (dir : PPath) (n : String) : PPath := ⟨dir.isAbs, dir.segs ++ [n]⟩

/-- `str(Path)`. -/
def pathToString (p : PPath) : String :=
  if p.isAbs then "/" ++ String.intercalate "/" p.segs
  else if p.segs = [] then "." else String.intercalate "/" p.segs

/-- `Path(s)`: split on `'/'`, dropping empty and `'.'` segments; a leading
`'/'` makes the path absolute. -/
def parsePath (s : String) : PPath :=
  let abs := s.data.head? = some '/'
  ⟨abs, (splitSlashAux [] s.data).filter (fun seg => seg ≠ "" && seg ≠ ".")⟩

/-- Lexical normalisation used by `Path.resolve()`: `".."` pops the last
segment (and is dropped at the root), other segments are appended. -/
def normSegs (segs : List String) : List String :=
  segs.foldl (fun acc seg =>
    if seg = ".." then acc.dropLast
    else if seg = "." || seg = "" then acc
    else acc ++ [seg]) []

/-- `Path.resolve()` (lexical model, anchored at `cwd` for relative paths). -/
def pathResolve (cwd : List String) (p : PPath) : PPath :=
  ⟨true, normSegs ((if p.isAbs then [] else cwd) ++ p.segs)⟩

/-- `a / b` for a relative `b`. -/
def pathJoin (a b : PPath) : PPath := ⟨a.isAbs, a.segs ++ b.segs⟩

/-! ## YAML documents -/

/-- A parsed YAML document.  Mapping keys are strings; mappings keep
insertion order (Python `dict` iteration order). -/
inductive YVal where
  | null : YVal
  | bool : Bool → YVal
  | num : Int → YVal
  | str : String → YVal
  | seq : List YVal → YVal
  | map : List (String × YVal) → YVal

/-- Python `dict.get` on a mapping (first binding wins; a loaded mapping has
no duplicate keys). -/
def ylookup (kvs : List (String × YVal)) (k : String) : Option YVal :=
  (kvs.find? (fun kv => kv.1 = k)).map Prod.snd

/-! ## The duplicate-key-safe loader (`UniqueKeyLoader`)

A raw YAML node tree (`Node`) may contain duplicate mapping keys; the loader
(`UniqueKeyLoader.construct_mapping`) turns it into a `YVal` or fails with a
`ConstructorError` on the first duplicate key encountered in construction
order.  Keys are string scalars, matching `construct_object` on the key node.
-/

/-- A raw YAML node as produced by the parser, before construction. -/
inductive Node where
  | scalar : String → Node
  | seq : List Node → Node
  | map : List (String × Node) → Node

/-- The `ConstructorError` message raised by
`UniqueKeyLoader.construct_mapping`: `found duplicate key ('k')`, with the
`while constructing a mapping` context. -/
def dupKeyMsg (k : String) : String :=
  "while constructing a mapping: found duplicate key (" ++ sq ++ k ++ sq ++ ")"

mutual

/-- `construct_object` through `UniqueKeyLoader`: scalars and sequences are
constructed as by `SafeLoader`; every mapping goes through the overridden
`construct_mapping`. -/
def constructNode : Node → Except String YVal
  | .scalar s => .ok (.str s)
  | .seq xs =>
    match constructSeq xs with
    | .ok vs => .ok (.seq vs)
    | .error e => .error e
  | .map kvs =>
    match constructMapAux kvs [] with
    | .ok m => .ok (.map m)
    | .error e => .error e

def constructSeq : List Node → Except String (List YVal)
  | [] => .ok []
  | x :: xs =>
    match constructNode x with
    | .error e => .error e
    | .ok v =>
      match constructSeq xs with
      | .error e => .error e
      | .ok vs => .ok (v :: vs)

/-- `UniqueKeyLoader.construct_mapping`: for each key/value pair, the key is
checked against the mapping built so far (raising on a duplicate) before the
value is constructed and inserted. -/
def constructMapAux : List (String × Node) → List (String × YVal) →
    Except String (List (String × YVal))
  | [], acc => .ok acc
  | (k, v) :: rest, acc =>
    if k ∈ acc.map Prod.fst then .error (dupKeyMsg k)
    else
      match constructNode v with
      | .error e => .error e
      | .ok val => constructMapAux rest (acc ++ [(k, val)])

end

/-- Does a list of keys contain a repetition? -/
def dupKeysB : List String → Bool
  | [] => false
  | k :: ks => decide (k ∈ ks) || dupKeysB ks

/-- `Except.isOk`. -/
def exIsOk {α : Type} : Except String α → Bool
  | .ok _ => true
  | .error _ => false

mutual

/-- Does some mapping node, at any depth (including inside sequences),
contain a duplicate key? -/
def hasDupNode : Node → Bool
  | .scalar _ => false
  | .seq xs => hasDupSeq xs
  | .map kvs => dupKeysB (kvs.map Prod.fst) || hasDupKvs kvs

def hasDupSeq : List Node → Bool
  | [] => false
  | x :: xs => hasDupNode x || hasDupSeq xs

def hasDupKvs : List (String × Node) → Bool
  | [] => false
  | (_, v) :: rest => hasDupNode v || hasDupKvs rest

end

mutual

/-- `k` occurs at least twice among the keys of a single mapping somewhere
inside the node. -/
def nodeHasDupKey : Node → String → Bool
  | .scalar _, _ => false
  | .seq xs, k => seqHasDupKey xs k
  | .map kvs, k =>
    decide ((kvs.map Prod.fst).count k ≥ 2) || kvsHasDupKey kvs k

def seqHasDupKey : List Node → String → Bool
  | [], _ => false
  | x :: xs, k => nodeHasDupKey x k || seqHasDupKey xs k

def kvsHasDupKey : List (String × Node) → String → Bool
  | [], _ => false
  | (_, v) :: rest, k => nodeHasDupKey v k || kvsHasDupKey rest k

end

/-! ## Issues and the external environment -/

/-- An `Issue` record: `{path, message, kind}` with kind defaulting to
`"error"`. -/
structure Issue where
  path : PPath
  message : String
  kind : String := "error"
deriving DecidableEq, Repr

/-- `Issue(path, message)` with the default `kind="error"`. -/
def mkErr (p : PPath) (m : String) : Issue := { path := p, message := m }

/-- The filesystem kind of an existing path: directory, regular file, or
something else (`exists()` true but `is_dir()`/`is_file()` both false). -/
inductive FKind where
  | dir : FKind
  | file : FKind
  | other : FKind
deriving DecidableEq, Repr

/-- A snapshot of the filesystem as observed through the calls the validator
makes: `exists`/`is_dir`/`is_file` (via `kind`) and `iterdir` (via
`listDir`, returning entry names in iteration order, or `none` for an
`OSError`). -/
structure FS where
  kind : PPath → Option FKind
  listDir : PPath → Option (List String)

/-- A schema-validation failure as raised by `jsonschema.validate`: the
`.message` and the rendered elements of `.path`. -/
structure SchemaErr where
  message : String
  epath : List String

/-- The external world consumed by the validator: the filesystem, the
process working directory (anchoring `Path.resolve()`), per-path results of
`load_yaml` (an exception message, an empty document, or a parsed document),
the two JSON schema checkers, the optional `ament_index_python` resolvers
(`none` when the import failed; `f pkg = none` when the lookup raises), and
the local-workspace package discovery `_find_local_package_path`. -/
structure Env where
  fs : FS
  cwd : List String
  load : PPath → Except String (Option YVal)
  launchSchema : YVal → Option SchemaErr
  configSchema : YVal → Option SchemaErr
  amentShare : Option (String → Option String)
  amentPfx : Option (String → Option String)
  localPkg : String → PPath → Option PPath

/-! ## Substitution scanning and `resolve_path_substitutions` -/

/-- The two verbs recognised by `FIND_PKG_RE`. -/
inductive PkgVerb where
  | share : PkgVerb
  | pfx : PkgVerb
deriving DecidableEq, Repr

def PkgVerb.str : PkgVerb → String
  | .share => "find-pkg-share"
  | .pfx => "find-pkg-prefix"

/-- Try the alternation `(find-pkg-share|find-pkg-prefix)` at the front. -/
def tryVerb (cs : List Char) : Option (PkgVerb × List Char) :=
  match dropLit "find-pkg-share".data cs with
  | some rest => some (.share, rest)
  | none =>
    match dropLit "find-pkg-prefix".data cs with
    | some rest => some (.pfx, rest)
    | none => none

/-- Match `FIND_PKG_RE` = `\$\(\s*(find-pkg-share|find-pkg-prefix)\s+([^)]+?)\s*\)`
at the current position.  Returns the verb, `group(2).strip()`, `group(0)`,
and the remainder of the input after the match.  After the verb, the
backtracking of `\s+([^)]+?)\s*\)` matches exactly when the text up to the
first `)` starts with a whitespace character and has length at least two;
the stripped capture is then the trimmed text before that `)`. -/
def matchFindPkg (cs : List Char) : Option (PkgVerb × String × List Char × List Char) :=
  match cs with
  | '$' :: '(' :: rest =>
    let rest1 := rest.dropWhile isSpaceChar
    let wsLen := rest.length - rest1.length
    match tryVerb rest1 with
    | none => none
    | some (v, rest2) =>
      let t := rest2.takeWhile (fun c => c ≠ ')')
      if t.length < rest2.length ∧ 2 ≤ t.length ∧ (t.head?.map isSpaceChar) = some true then
        let consumed := 2 + wsLen + (v.str.length) + t.length + 1
        some (v, String.mk (trimChars t), cs.take consumed, cs.drop consumed)
      else none
  | _ => none

/-- `repl_pkg` inside `resolve_path_substitutions`: the replacement text for
one `FIND_PKG_RE` match together with the issues it appends. -/
def replPkg (env : Env) (currentFile : PPath) (isolatedCi : Bool)
    (v : PkgVerb) (pkg : String) (matched : List Char) : List Char × List Issue :=
  let resolver := match v with | .share => env.amentShare | .pfx => env.amentPfx
  if pkg.data.contains '$' then ("$(var ...)".data, [])
  else
    match resolver with
    | none =>
      -- ament_index not available; only use local package discovery
      match env.localPkg pkg currentFile with
      | some p => ((pathToString p).data, [])
      | none => (matched, [])
    | some f =>
      match f pkg with
      | some path => (path.data, [])
      | none =>
        match env.localPkg pkg currentFile with
        | some p => ((pathToString p).data, [])
        | none =>
          if !isolatedCi then
            (matched,
              [mkErr currentFile
                ("Cannot resolve package " ++ sq ++ pkg ++ sq ++
                  " in " ++ v.str ++ ": ")])
          else (matched, [])

/-- `FIND_PKG_RE.sub(repl_pkg, expr)`: scan left to right, replacing each
match and collecting the issues appended by `repl_pkg` in match order.
`fuel` bounds the recursion; every step consumes at least one character, so
`expr.length` fuel is enough. -/
def findPkgSubAux (env : Env) (currentFile : PPath) (isolatedCi : Bool) :
    Nat → List Char → List Char × List Issue
  | 0, cs => (cs, [])
  | fuel + 1, cs =>
    match cs with
    | [] => ([], [])
    | c :: rest =>
      match matchFindPkg cs with
      | some (v, pkg, matched, remainder) =>
        let (rep, iss) := replPkg env currentFile isolatedCi v pkg matched
        let (tailRes, tailIss) := findPkgSubAux env currentFile isolatedCi fuel remainder
        (rep ++ tailRes, iss ++ tailIss)
      | none =>
        let (tailRes, tailIss) := findPkgSubAux env currentFile isolatedCi fuel rest
        (c :: tailRes, tailIss)

/-- Match `DIRNAME_RE` = `\$\(\s*dirname\s*\)` at the current position,
returning the remainder after the match. -/
def matchDirname (cs : List Char) : Option (List Char) :=
  match cs with
  | '$' :: '(' :: rest =>
    match dropLit "dirname".data (rest.dropWhile isSpaceChar) with
    | none => none
    | some r2 =>
      match r2.dropWhile isSpaceChar with
      | ')' :: r4 => some r4
      | _ => none
  | _ => none

/-- `DIRNAME_RE.sub(str(current_file.parent), resolved)`. -/
def dirnameSubAux (rep : List Char) : Nat → List Char → List Char
  | 0, cs => cs
  | fuel + 1, cs =>
    match cs with
    | [] => []
    | c :: rest =>
      match matchDirname cs with
      | some remainder => rep ++ dirnameSubAux rep fuel remainder
      | none => c :: dirnameSubAux rep fuel rest

/-- `resolve_path_substitutions(expr, current_file, isolated_ci)`:
replace `$(find-pkg-share pkg)` / `$(find-pkg-prefix pkg)` via `repl_pkg`,
then `$(dirname)` by `str(current_file.parent)`; returns
`(resolved, issues)`. -/
def resolvePathSubstitutions (env : Env) (expr : String) (currentFile : PPath)
    (isolatedCi : Bool) : String × List Issue :=
  let (r, iss) := findPkgSubAux env currentFile isolatedCi expr.data.length expr.data
  let r2 := dirnameSubAux (pathToString currentFile.parent).data r.length r
  (String.mk r2, iss)

/-! ## Traversal helpers and the substitution-name scan -/

mutual

/-- `_walk_values`: all scalar string values in a nested structure, in
traversal order (mapping values, then sequence items). -/
def walkValues : YVal → List String
  | .str s => [s]
  | .seq xs => walkValuesList xs
  | .map kvs => walkValuesKvs kvs
  | _ => []

def walkValuesList : List YVal → List String
  | [] => []
  | x :: xs => walkValues x ++ walkValuesList xs

def walkValuesKvs : List (String × YVal) → List String
  | [] => []
  | (_, v) :: kvs => walkValues v ++ walkValuesKvs kvs

end

mutual

/-- `contains_ros_parameters`: some mapping in the structure has a
`ros__parameters` key. -/
def containsRosParameters : YVal → Bool
  | .map kvs => (kvs.map Prod.fst).contains "ros__parameters" || crpKvs kvs
  | .seq xs => crpList xs
  | _ => false

def crpList : List YVal → Bool
  | [] => false
  | x :: xs => containsRosParameters x || crpList xs

def crpKvs : List (String × YVal) → Bool
  | [] => false
  | (_, v) :: kvs => containsRosParameters v || crpKvs kvs

end

/-- `ALLOWED_LAUNCH_SUBSTITUTIONS` membership. -/
def allowedSub (n : String) : Bool :=
  n = "find-pkg-share" || n = "find-pkg-prefix" || n = "command" || n = "var" ||
  n = "env" || n = "dirname" || n = "eval" || n = "anon"

/-- `", ".join(sorted(ALLOWED_LAUNCH_SUBSTITUTIONS))`. -/
def allowedList : String :=
  "anon, command, dirname, env, eval, find-pkg-prefix, find-pkg-share, var"

/-- One step of `SUBSTITUTION_RE` = `\$\(\s*([A-Za-z0-9_-]+)` matching at the
current position: the captured name and the remainder after the match. -/
def matchSubName (cs : List Char) : Option (String × List Char) :=
  match cs with
  | '$' :: '(' :: rest =>
    let afterWs := rest.dropWhile isSpaceChar
    let name := afterWs.takeWhile isNameChar
    if name = [] then none
    else some (String.mk name, afterWs.drop name.length)
  | _ => none

/-- `SUBSTITUTION_RE.finditer(value)`: all captured substitution names, left
to right, continuing after each match (and one character forward after a
failed position). -/
def scanSubAux : Nat → List Char → List String
  | 0, _ => []
  | _ + 1, [] => []
  | fuel + 1, c :: rest =>
    match matchSubName (c :: rest) with
    | some (name, remainder) => name :: scanSubAux fuel remainder
    | none => scanSubAux fuel rest

/-- All substitution names appearing in one string value. -/
def scanSubNames (s : String) : List String := scanSubAux s.data.length s.data

/-- The message of an unknown-substitution issue. -/
def unknownSubMsg (name : String) : String :=
  "Unknown launch substitution " ++ sq ++ name ++ sq ++
    " used. Allowed substitutions: " ++ allowedList

/-- `check_launch_substitutions(path, data)`: one issue per occurrence of a
substitution name outside `ALLOWED_LAUNCH_SUBSTITUTIONS`, over every string
value of the document. -/
def checkLaunchSubstitutions (path : PPath) (data : YVal) : List Issue :=
  (walkValues data).flatMap (fun value =>
    (scanSubNames value).filterMap (fun name =>
      if allowedSub name then none
      else some (mkErr path (unknownSubMsg name))))

/-- `looks_like_path(value)`. -/
def looksLikePath (value : String) : Bool :=
  strContains value "$(find-pkg-share" || strContains value "$(find-pkg-prefix" ||
  strContains value "$(dirname)" ||
  endsWithChars ".yaml".data value.data || endsWithChars ".yml".data value.data

/-- `make_path_relative_to_file(resolved, current_file)`: absolute strings
pass through; relative strings are joined to the current file's directory and
resolved. -/
def makePathRelativeToFile (cwd : List String) (resolved : String)
    (currentFile : PPath) : PPath :=
  let p := parsePath resolved
  if p.isAbs then p else pathResolve cwd (pathJoin currentFile.parent p)

/-! ## `difflib.SequenceMatcher` ratio

Exact rational model of `SequenceMatcher(None, a, b).ratio()` for the short
strings compared here (`len(b) < 200`, so autojunk never fires and `b2j` is
complete). -/

/-- State of `find_longest_match`: the best block found so far. -/
structure FLM where
  besti : Nat
  bestj : Nat
  bestsize : Nat
deriving DecidableEq, Repr

/-- Lookup with default `0` in the `j2len` association list. -/
def lookupD (m : List (Nat × Nat)) (k : Nat) : Nat :=
  match m.find? (fun p => p.1 = k) with
  | some p => p.2
  | none => 0

/-- The inner loop of `find_longest_match` over the `b`-indices of one
`a`-element: `j < blo` is skipped, `j >= bhi` breaks, otherwise
`k = j2len[j-1] + 1` extends the diagonal (with `j2len[-1] = 0` for `j = 0`). -/
def flmJs (i : Nat) (blo bhi : Nat) (j2len : List (Nat × Nat)) :
    List Nat → List (Nat × Nat) → FLM → List (Nat × Nat) × FLM
  | [], newJ2len, best => (newJ2len, best)
  | j :: js, newJ2len, best =>
    if j < blo then flmJs i blo bhi j2len js newJ2len best
    else if bhi ≤ j then (newJ2len, best)
    else
      let k := (if j = 0 then 0 else lookupD j2len (j - 1)) + 1
      let best2 := if best.bestsize < k then ⟨i + 1 - k, j + 1 - k, k⟩ else best
      flmJs i blo bhi j2len js ((j, k) :: newJ2len) best2

/-- `find_longest_match(alo, ahi, blo, bhi)` with no junk. -/
def findLongestMatch (a b : List Char) (alo ahi blo bhi : Nat) : FLM :=
  let step := fun (st : List (Nat × Nat) × FLM) (i : Nat) =>
    let js := (b.enum.filterMap
      (fun p => if p.2 = a.getD i ' ' then some p.1 else none))
    flmJs i blo bhi st.1 js [] st.2
  ((List.range' alo (ahi - alo)).foldl step ([], ⟨alo, blo, 0⟩)).2

/-- Total size of the matching blocks (the `M` of `ratio`), by the recursive
divide-and-conquer of `get_matching_blocks`.  Every recursive call strictly
shrinks the interval sum, so `ahi + bhi` fuel suffices. -/
def matchedSizeAux (a b : List Char) : Nat → Nat → Nat → Nat → Nat → Nat
  | 0, _, _, _, _ => 0
  | fuel + 1, alo, ahi, blo, bhi =>
    let m := findLongestMatch a b alo ahi blo bhi
    if m.bestsize = 0 then 0
    else
      m.bestsize +
        matchedSizeAux a b fuel alo m.besti blo m.bestj +
        matchedSizeAux a b fuel (m.besti + m.bestsize) ahi (m.bestj + m.bestsize) bhi

/-- `sum(block.size for block in get_matching_blocks())`. -/
def matchedSize (a b : List Char) : Nat :=
  matchedSizeAux a b (a.length + b.length + 1) 0 a.length 0 b.length

/-- `SequenceMatcher(None, a, b).ratio()`, exactly: `2M / (len(a)+len(b))`,
and `1.0` when both are empty. -/
def smRatio (a b : String) : Rat :=
  let t := a.data.length + b.data.length
  if t = 0 then 1 else (2 * (matchedSize a.data b.data) : Rat) / (t : Rat)

/-- `SIMILARITY_THRESHOLD`. -/
def similarityThreshold : Rat := 1 / 2

/-! ## Fuzzy path suggester -/

/-- The filtered fold of `_best_match_in_dir` over the qualifying candidates:
keep the first strict improvement of the running best score. -/
def foldBest (dir : PPath) : List (String × Rat) → Rat → Option PPath → Rat × Option PPath
  | [], s, c => (s, c)
  | p :: rest, s, c =>
    if s < p.2 then foldBest dir rest p.2 (some (childPath dir p.1))
    else foldBest dir rest s c

/-- The qualifying entries of a directory listing paired with their scores:
directories when `require_dir`, files otherwise (entries whose `is_dir` /
`is_file` probe fails with `OSError` are skipped, like candidates of the
wrong kind). -/
def candScores (fs : FS) (dir : PPath) (targetLower : String) (requireDir : Bool)
    (entries : List String) : List (String × Rat) :=
  entries.filterMap (fun n =>
    let ok := if requireDir then fs.kind (childPath dir n) = some .dir
              else fs.kind (childPath dir n) = some .file
    if ok then some (n, smRatio targetLower (lowerStr n)) else none)

/-- `_best_match_in_dir(directory, target_name, require_dir)`: fold over the
directory entries keeping the first strict best score (skipping entries of
the wrong kind or whose probe raises), then apply the similarity
threshold. -/
def bestMatchInDir (fs : FS) (dir : PPath) (targetName : String)
    (requireDir : Bool) : Option PPath :=
  match fs.listDir dir with
  | none => none
  | some entries =>
    match entries.foldl (fun (acc : Rat × Option PPath) n =>
      if (if requireDir then fs.kind (childPath dir n) = some FKind.dir
          else fs.kind (childPath dir n) = some FKind.file) then
        (if acc.1 < smRatio (lowerStr targetName) (lowerStr n) then
          (smRatio (lowerStr targetName) (lowerStr n), some (childPath dir n))
        else acc)
      else acc) (0, none) with
    | (bestScore, some c) => if similarityThreshold ≤ bestScore then some c else none
    | (_, none) => none

/-- The upward loop of `suggest_similar_path`: starting from the reversed
segment list of the target, stop at the first ancestor that exists as a
directory (collecting the missing trailing segments, shallowest first), and
give up when the walk reaches a parentless path that is no directory. -/
def walkUpAux (fs : FS) (isAbs : Bool) : List String → List String →
    Option (PPath × List String)
  | revSegs, acc =>
    if fs.kind ⟨isAbs, revSegs.reverse⟩ = some .dir then
      some (⟨isAbs, revSegs.reverse⟩, acc)
    else
      match revSegs with
      | [] => none
      | n :: rest => walkUpAux fs isAbs rest (n :: acc)

/-- The downward loop of `suggest_similar_path`: best-match each missing
segment in turn (directories for all but the last segment, files for the
last). -/
def downWalk (fs : FS) : PPath → List String → Option PPath
  | cand, [] => some cand
  | cand, part :: rest =>
    if fs.kind cand = some .dir then
      match bestMatchInDir fs cand part (rest ≠ []) with
      | none => none
      | some m => downWalk fs m rest
    else none

/-- `suggest_similar_path(target)`. -/
def suggestSimilarPath (fs : FS) (target : PPath) : Option PPath :=
  match walkUpAux fs target.isAbs target.segs.reverse [] with
  | none => none
  | some (base, missing) =>
    if missing = [] then none else downWalk fs base missing

/-! ## Launch traversal, reference collection and semantic checks -/

/-- `iter_launch_entries(data)`: the dict entries of the `launch` list, each
with its `node` and `include` values. -/
def iterLaunchEntries (data : YVal) : List (YVal × Option YVal × Option YVal) :=
  match data with
  | .map kvs =>
    match (ylookup kvs "launch").getD (.seq []) with
    | .seq entries =>
      entries.filterMap (fun entry =>
        match entry with
        | .map m => some (entry, ylookup m "node", ylookup m "include")
        | _ => none)
    | _ => []
  | _ => []

/-- The `from` string of one `param` list item, when it is a dict with a
string `from` value. -/
def paramFromString (param : YVal) : Option String :=
  match param with
  | .map pm =>
    match ylookup pm "from" with
    | some (.str s) => some s
    | _ => none
  | _ => none

/-- `collect_config_references_from_launch(path, data)`: for every
`node.param[].from` string, resolve placeholders in silenced mode, skip
strings still containing `$(`, and add the resolved absolute path.  The set
is modelled as the list of additions in traversal order. -/
def collectConfigReferencesFromLaunch (env : Env) (path : PPath) (data : YVal) :
    List PPath :=
  (iterLaunchEntries data).flatMap (fun e =>
    match e.2.1 with
    | some (.map nodeKvs) =>
      match ylookup nodeKvs "param" with
      | some (.seq params) =>
        params.filterMap (fun param =>
          match paramFromString param with
          | none => none
          | some fromValue =>
            let resolved := (resolvePathSubstitutions env fromValue path true).1
            if strContains resolved "$(var" || strContains resolved "$(" then none
            else
              some (pathResolve env.cwd
                (makePathRelativeToFile env.cwd resolved path)))
      | _ => []
    | _ => [])

/-- The issues of the `include.file` part of one launch entry, together with
the `continue` flag raised when the resolved value still contains a
placeholder (which skips the rest of the entry). -/
def includeIssues (env : Env) (path : PPath) (isolatedCi : Bool)
    (includeData : Option YVal) : List Issue × Bool :=
  match includeData with
  | some (.map incKvs) =>
    match ylookup incKvs "file" with
    | some (.str fileValue) =>
      let (resolved, extra) := resolvePathSubstitutions env fileValue path isolatedCi
      if strContains resolved "$(var" || strContains resolved "$(" then (extra, true)
      else
        let incPath := makePathRelativeToFile env.cwd resolved path
        if env.fs.kind incPath ≠ some .file ∧ isolatedCi = false then
          let hint :=
            match suggestSimilarPath env.fs incPath with
            | some s => " (closest match: " ++ pathToString s ++ ")"
            | none => ""
          (extra ++ [mkErr path
            ("Included launch file does not exist: " ++
              pathToString incPath ++ hint)], false)
        else (extra, false)
    | _ => ([], false)
  | _ => ([], false)

/-- The issues of one `node.param[]` item of a launch entry. -/
def paramIssues (env : Env) (path : PPath) (isolatedCi : Bool) (param : YVal) :
    List Issue :=
  match paramFromString param with
  | none => []
  | some fromValue =>
    let (resolved, extra) := resolvePathSubstitutions env fromValue path isolatedCi
    if strContains resolved "$(var" || strContains resolved "$(" then extra
    else
      let cfgPath := makePathRelativeToFile env.cwd resolved path
      if env.fs.kind cfgPath ≠ some .file ∧ isolatedCi = false then
        let hint :=
          match suggestSimilarPath env.fs cfgPath with
          | some s => " (closest match: " ++ pathToString s ++ ")"
          | none => ""
        extra ++ [mkErr path
          ("Parameter file does not exist: " ++ pathToString cfgPath ++ hint)]
      else extra

/-- The `node.param` part of one launch entry. -/
def nodeIssues (env : Env) (path : PPath) (isolatedCi : Bool)
    (nodeData : Option YVal) : List Issue :=
  match nodeData with
  | some (.map nodeKvs) =>
    match ylookup nodeKvs "param" with
    | some (.seq params) => params.flatMap (paramIssues env path isolatedCi)
    | _ => []
  | _ => []

/-- `check_launch_semantics(path, data, isolated_ci)`: the substitution-name
scan followed by per-entry include-file and param-file checks (an entry whose
include still contains a placeholder is abandoned before its node part). -/
def checkLaunchSemantics (env : Env) (path : PPath) (data : YVal)
    (isolatedCi : Bool) : List Issue :=
  checkLaunchSubstitutions path data ++
    (iterLaunchEntries data).flatMap (fun e =>
      let (incIss, skip) := includeIssues env path isolatedCi e.2.2
      incIss ++ if skip then [] else nodeIssues env path isolatedCi e.2.1)

/-- `check_config_semantics(path, data, isolated_ci)`. -/
def checkConfigSemantics (env : Env) (path : PPath) (data : YVal)
    (isolatedCi : Bool) : List Issue :=
  (walkValues data).flatMap (fun value =>
    if looksLikePath value then
      let (resolved, extra) := resolvePathSubstitutions env value path isolatedCi
      if strContains resolved "$(var" || strContains resolved "$(" then extra
      else
        let cfgPath := makePathRelativeToFile env.cwd resolved path
        if env.fs.kind cfgPath ≠ some .file ∧ isolatedCi = false then
          extra ++ [mkErr path
            ("Referenced file does not exist: " ++ pathToString cfgPath)]
        else extra
    else [])

/-! ## Classification, two-pass pipeline, result aggregation -/

/-- `is_launch_data(data)`. -/
def isLaunchData (data : YVal) : Bool :=
  match data with
  | .map kvs => (kvs.map Prod.fst).contains "launch"
  | _ => false

/-- `is_launch_file(path, data)`: name contains `"launch"` or content has a
`launch` key. -/
def isLaunchFile (path : PPath) (data : YVal) : Bool :=
  strContains path.name "launch" || isLaunchData data

/-- `is_in_config_dir(path)`: some path segment is `config` or `configs`
(the `'/'` anchor of `Path.parts` can equal neither). -/
def isInConfigDir (path : PPath) : Bool :=
  path.segs.any (fun part => part = "config" || part = "configs")

/-- `FileInfo` per-file metadata. -/
structure FileInfo where
  path : PPath
  data : YVal
  is_launch : Bool
  contains_ros_params : Bool
  is_param_config : Bool := false

/-- `ValidationResult`. -/
structure ValidationResult where
  issues : List Issue
  num_launch : Nat
  num_config : Nat

/-- `ValidationResult.error_files` (a set; modelled as the deduplicated list
of paths of error-kind issues). -/
def ValidationResult.error_files (r : ValidationResult) : List PPath :=
  ((r.issues.filter (fun i => i.kind = "error")).map Issue.path).dedup

/-- `ValidationResult.error_count`. -/
def ValidationResult.error_count (r : ValidationResult) : Nat :=
  (r.issues.filter (fun i => i.kind = "error")).length

/-- `ValidationResult.error_file_count`. -/
def ValidationResult.error_file_count (r : ValidationResult) : Nat :=
  r.error_files.length

/-- `validate_with_schema(data, schema, path, schema_name)`: at most one
issue, formatted from the validation error's message and path. -/
def validateWithSchema (check : YVal → Option SchemaErr) (data : YVal)
    (path : PPath) (schemaName : String) : List Issue :=
  match check data with
  | none => []
  | some e =>
    [mkErr path (schemaName ++ " validation error: " ++ e.message ++
      (if e.epath ≠ [] then
        " (at [" ++ String.intercalate ", " e.epath ++ "])"
      else ""))]

/-- The first-pass outcome for one file: its `FileInfo` (if the document
loads to something non-empty), its contributed references (for launch
files), and its parse/empty issue (otherwise). -/
def classifyOne (env : Env) (p : PPath) :
    Option FileInfo × List PPath × Option Issue :=
  match env.load p with
  | .error e => (none, [], some (mkErr p ("YAML syntax error: " ++ e)))
  | .ok none => (none, [], some (mkErr p "YAML file is empty"))
  | .ok (some data) =>
    let isl := isLaunchFile p data
    (some ⟨p, data, isl, containsRosParameters data, false⟩,
      if isl then collectConfigReferencesFromLaunch env p data else [],
      none)

/-- `classify_files(files)`: load, classify, and collect references over the
file list in order. -/
def classifyFiles (env : Env) : List PPath →
    List FileInfo × List PPath × List Issue
  | [] => ([], [], [])
  | p :: rest =>
    let (oi, refs1, oiss) := classifyOne env p
    let (infos, refs, issues) := classifyFiles env rest
    (oi.toList ++ infos, refs1 ++ refs, oiss.toList ++ issues)

/-- The second pass over one `FileInfo`: schema + semantic issues, and the
`is_param_config` flag filled in for non-launch files. -/
def secondPass (env : Env) (isolatedCi : Bool) (refs : List PPath)
    (info : FileInfo) : FileInfo × List Issue :=
  if info.is_launch then
    (info,
      validateWithSchema env.launchSchema info.data info.path "launch-schema" ++
        checkLaunchSemantics env info.path info.data isolatedCi)
  else
    let inConfigDir := isInConfigDir info.path
    let absPath := pathResolve env.cwd info.path
    let isParam := inConfigDir &&
      (info.contains_ros_params || decide (absPath ∈ refs))
    ({ info with is_param_config := isParam },
      if isParam then
        validateWithSchema env.configSchema info.data info.path "config-schema" ++
          checkConfigSemantics env info.path info.data isolatedCi
      else [])

/-- `validate_files(files, isolated_ci)`. -/
def validateFiles (env : Env) (files : List PPath) (isolatedCi : Bool) :
    ValidationResult :=
  let (infos, refs, firstPassIssues) := classifyFiles env files
  let second := infos.map (secondPass env isolatedCi refs)
  { issues := firstPassIssues ++ second.flatMap Prod.snd,
    num_launch := infos.countP (fun i => i.is_launch),
    num_config := infos.countP (fun i => !i.is_launch) }

/-- The post-run state of the `FileInfo` records (the Python code mutates
them in place during the second pass). -/
def validateFilesInfos (env : Env) (files : List PPath) (isolatedCi : Bool) :
    List FileInfo :=
  let (infos, refs, _) := classifyFiles env files
  (infos.map (secondPass env isolatedCi refs)).map Prod.fst

/-- `check_files(files, isolated_ci)` stripped of its printing: the process
exit status. -/
def checkFiles (env : Env) (files : List PPath) (isolatedCi : Bool) : Nat :=
  if files = [] then 0
  else if (validateFiles env files isolatedCi).error_count ≠ 0 then 1 else 0

/-! ## Claim-side specification functions

These restate, in the spec's words, the quantities the claims talk about;
the theorems below relate them to the embedded code. -/

/-- Whether a file loads to a non-empty document. -/
def loadedOk (env : Env) (p : PPath) : Bool :=
  match env.load p with
  | .ok (some _) => true
  | _ => false

/-- The single first-pass issue of a file that fails to load or is empty. -/
def pass1Issue (env : Env) (p : PPath) : Option Issue :=
  match env.load p with
  | .error e => some (mkErr p ("YAML syntax error: " ++ e))
  | .ok none => some (mkErr p "YAML file is empty")
  | .ok (some _) => none

/-- The second-pass issues of one file (empty for files excluded in pass 1),
given the global reference set. -/
def pass2Issues (env : Env) (isolatedCi : Bool) (refs : List PPath)
    (p : PPath) : List Issue :=
  match env.load p with
  | .ok (some data) =>
    (secondPass env isolatedCi refs
      ⟨p, data, isLaunchFile p data, containsRosParameters data, false⟩).2
  | _ => []

/-- Claim side (C5): the unknown substitution names of a document, one entry
per occurrence, in scan order. -/
def unknownSubNames (data : YVal) : List String :=
  ((walkValues data).flatMap scanSubNames).filter (fun n => !allowedSub n)

/-- Claim side (C6): the maximum score of a scored candidate list. -/
def maxScore (l : List (String × Rat)) : Rat :=
  l.foldr (fun p m => max p.2 m) 0

/-- Claim side (C6): the first candidate attaining the maximum score, if
that maximum reaches the similarity threshold. -/
def firstBestQualifying (l : List (String × Rat)) : Option String :=
  if similarityThreshold ≤ maxScore l then
    (l.find? (fun p => decide (p.2 = maxScore l))).map Prod.fst
  else none

/-- Claim side (C7): every `node.param[].from` string of a launch document,
in traversal order. -/
def paramFromStrings (data : YVal) : List String :=
  (iterLaunchEntries data).flatMap (fun e =>
    match e.2.1 with
    | some (.map nodeKvs) =>
      match ylookup nodeKvs "param" with
      | some (.seq params) => params.filterMap paramFromString
      | _ => []
    | _ => [])

/-- Claim side (C7): a resolved, normalised path — absolute, with no empty,
`'.'` or `'..'` segments. -/
def isNormalizedAbs (p : PPath) : Bool :=
  p.isAbs && p.segs.all (fun s => s ≠ "" && s ≠ "." && s ≠ "..")

/-! ## Concrete fixtures used by witnesses and counterexamples -/

/-- A document whose nested mapping (inside a sequence) repeats the key
`b`. -/
def dupNode : Node :=
  .map [("a", .seq [.map [("b", .scalar "1"), ("b", .scalar "2")]])]

/-- A filesystem on which every probe fails: nothing exists, every listing
raises. -/
def emptyFS : FS := ⟨fun _ => none, fun _ => none⟩

/-- An environment with no package-index capability, no discoverable local
package, an empty filesystem, and schemas that accept everything; every file
fails to load (irrelevant for resolver-level claims). -/
def noCapEnv : Env :=
  { fs := emptyFS
    cwd := ["home"]
    load := fun _ => .error "boom"
    launchSchema := fun _ => none
    configSchema := fun _ => none
    amentShare := none
    amentPfx := none
    localPkg := fun _ _ => none }

/-- The `Path("dummy.yaml")` of the repository's unit test. -/
def dummyFile : PPath := ⟨false, ["dummy.yaml"]⟩

/-- C4 fixture: the lexicographically smaller file, which parses. -/
def pA : PPath := ⟨false, ["a", "launch", "x.yaml"]⟩

/-- C4 fixture: the lexicographically larger file, which fails to parse. -/
def pB : PPath := ⟨false, ["b", "launch", "y.yaml"]⟩

/-- C4 fixture: a launch document carrying an unknown substitution. -/
def dataA : YVal := .map [("launch", .seq [.str "$(frobnicate x)"])]

/-- C4 fixture environment: `pA` loads to `dataA`, everything else raises a
YAML syntax error. -/
def envC4 : Env :=
  { noCapEnv with load := fun p => if p = pA then .ok (some dataA) else .error "boom" }

/-- C2 fixture: a parameter config inside a `config` directory. -/
def pC : PPath := ⟨false, ["config", "a.yaml"]⟩

/-- C2 fixture: a document with a nested `ros__parameters` mapping. -/
def dataC : YVal := .map [("ns", .map [("ros__parameters", .null)])]

/-- C2 fixture environment: only `pC` loads. -/
def envC2 : Env :=
  { noCapEnv with load := fun p => if p = pC then .ok (some dataC) else .error "boom" }

/-- C2 fixture: the `FileInfo` of `pC` after the second pass. -/
def infoC2 : FileInfo := ⟨pC, dataC, false, true, true⟩

/-- C7 fixture: a launch file path. -/
def pL : PPath := ⟨false, ["launch", "main.yaml"]⟩

/-- C7 fixture: a launch document whose node references
`../config/p.yaml`. -/
def dataL : YVal :=
  .map [("launch", .seq
    [.map [("node", .map [("param", .seq [.map [("from", .str "../config/p.yaml")]])])]])]

/-- C7 fixture environment. -/
def envC7 : Env := { noCapEnv with cwd := ["ws"] }

/-- C7 fixture: the resolved reference collected from `dataL`. -/
def qC7 : PPath := ⟨true, ["ws", "config", "p.yaml"]⟩

/-- C6 fixture: a filesystem with directory `/d` containing the single file
`ac`. -/
def fsC6 : FS :=
  { kind := fun p =>
      if p = ⟨true, ["d"]⟩ then some .dir
      else if p = ⟨true, ["d", "ac"]⟩ then some .file
      else none
    listDir := fun p => if p = ⟨true, ["d"]⟩ then some ["ac"] else none }

/-- C6 fixture: the missing sibling `/d/ab`. -/
def targetC6 : PPath := ⟨true, ["d", "ab"]⟩

/-! ## Boolean helpers used to state the loader lemmas -/

/-- Boolean membership. -/
def memB (k : String) (ks : List String) : Bool := decide (k ∈ ks)

/-- Does some key of `ks` already occur in `seen`? -/
def keysClash (ks seen : List String) : Bool := ks.any (fun k => memB k seen)

/-- The success condition of `construct_mapping` relative to the keys seen
so far: each key fresh, each value duplicate-free. -/
def mapFresh (seen : List String) : List (String × Node) → Bool
  | [] => true
  | (k, v) :: rest => !(memB k seen) && !(hasDupNode v) && mapFresh (seen ++ [k]) rest

/-! # Theorems -/

/-! ## C3: duplicate-key detection in the loader -/

theorem keysClash_nil (ks : List String) : keysClash ks [] = false := by
  simp [keysClash, memB]

theorem memB_append (k : String) (a b : List String) :
    memB k (a ++ b) = (memB k a || memB k b) := by
  simp [memB, List.mem_append]

theorem any_or_distrib (l : List String) (p q : String → Bool) :
    l.any (fun x => p x || q x) = (l.any p || l.any q) := by
  induction l with
  | nil => simp
  | cons x xs ih => simp [ih]; ac_rfl

theorem keysClash_append (ks seen : List String) (k : String) :
    keysClash ks (seen ++ [k]) = (keysClash ks seen || memB k ks) := by
  unfold keysClash
  have h1 : (fun x => memB x (seen ++ [k])) =
      fun x => memB x seen || memB x [k] := by
    funext x; exact memB_append x seen [k]
  rw [h1, any_or_distrib]
  have h2 : ks.any (fun x => memB x [k]) = memB k ks := by
    induction ks with
    | nil => simp [memB]
    | cons y ys ih =>
      have ih2 : ys.any (fun x => decide (x = k)) = decide (k ∈ ys) := by
        simpa [memB] using ih
      by_cases hyk : y = k
      · subst hyk; simp [memB]
      · simp [memB, hyk, Ne.symm hyk, ih2]
  rw [h2]

theorem mapFresh_eq (kvs : List (String × Node)) (seen : List String) :
    mapFresh seen kvs =
      (!keysClash (kvs.map Prod.fst) seen &&
        (!dupKeysB (kvs.map Prod.fst) && !hasDupKvs kvs)) := by
  induction kvs generalizing seen with
  | nil => simp [mapFresh, keysClash, dupKeysB, hasDupKvs]
  | cons kv rest ih =>
    obtain ⟨k, v⟩ := kv
    simp only [mapFresh, ih (seen ++ [k]), List.map_cons, dupKeysB, hasDupKvs,
      keysClash_append]
    simp only [keysClash, List.any_cons, memB]
    cases hks : decide (k ∈ seen) <;>
      cases hdv : hasDupNode v <;>
      cases hc : (rest.map Prod.fst).any (fun x => decide (x ∈ seen)) <;>
      cases hm : decide (k ∈ rest.map Prod.fst) <;>
      cases hd : dupKeysB (rest.map Prod.fst) <;>
      cases hk : hasDupKvs rest <;>
      simp_all [memB]

mutual

theorem constructNode_ok_iff (n : Node) :
    exIsOk (constructNode n) = true ↔ hasDupNode n = false := by
  cases n with
  | scalar s => simp [constructNode, hasDupNode, exIsOk]
  | seq xs =>
    have exEq : exIsOk (constructNode (.seq xs)) = exIsOk (constructSeq xs) := by
      cases h : constructSeq xs <;> simp [constructNode, h, exIsOk]
    rw [exEq, constructSeq_ok_iff xs]
    simp [hasDupNode]
  | map kvs =>
    have exEq : exIsOk (constructNode (.map kvs)) = exIsOk (constructMapAux kvs []) := by
      cases h : constructMapAux kvs [] <;> simp [constructNode, h, exIsOk]
    have ih := constructMapAux_ok_iff kvs []
    rw [exEq, ih]
    rw [mapFresh_eq, List.map_nil, keysClash_nil]
    simp only [hasDupNode]
    cases hd : dupKeysB (kvs.map Prod.fst) <;> cases hk : hasDupKvs kvs <;> simp

theorem constructSeq_ok_iff (xs : List Node) :
    exIsOk (constructSeq xs) = true ↔ hasDupSeq xs = false := by
  cases xs with
  | nil => simp [constructSeq, hasDupSeq, exIsOk]
  | cons x xs =>
    have exEq : exIsOk (constructSeq (x :: xs)) =
        (exIsOk (constructNode x) && exIsOk (constructSeq xs)) := by
      cases hx : constructNode x <;> cases hxs : constructSeq xs <;>
        simp [constructSeq, hx, hxs, exIsOk]
    rw [exEq]
    simp only [Bool.and_eq_true, hasDupSeq, Bool.or_eq_false_iff]
    exact and_congr (constructNode_ok_iff x) (constructSeq_ok_iff xs)

theorem constructMapAux_ok_iff (kvs : List (String × Node))
    (acc : List (String × YVal)) :
    exIsOk (constructMapAux kvs acc) = true ↔
      mapFresh (acc.map Prod.fst) kvs = true := by
  cases kvs with
  | nil => simp [constructMapAux, mapFresh, exIsOk]
  | cons kv rest =>
    obtain ⟨k, v⟩ := kv
    by_cases hmem : k ∈ acc.map Prod.fst
    · simp [constructMapAux, hmem, exIsOk, mapFresh, memB]
    · cases hv : constructNode v with
      | error e =>
        have hdv : hasDupNode v = true := by
          have ihv := constructNode_ok_iff v
          rw [hv] at ihv
          simpa [exIsOk] using ihv
        simp [constructMapAux, hmem, hv, exIsOk, mapFresh, memB, hdv]
      | ok val =>
        have hdv : hasDupNode v = false :=
          (constructNode_ok_iff v).mp (by simp [hv, exIsOk])
        have ih := constructMapAux_ok_iff rest (acc ++ [(k, val)])
        simp only [List.map_append, List.map_cons, List.map_nil] at ih
        simp [constructMapAux, hmem, hv, mapFresh, memB, hdv, ih]

end

mutual

theorem constructNode_error_name (n : Node) (m : String)
    (h : constructNode n = .error m) :
    ∃ k, m = dupKeyMsg k ∧ nodeHasDupKey n k = true := by
  cases n with
  | scalar s => simp [constructNode] at h
  | seq xs =>
    cases hs : constructSeq xs with
    | ok vs => rw [constructNode, hs] at h; exact absurd h (by simp)
    | error e =>
      rw [constructNode, hs] at h
      have hem : e = m := by simpa using h
      subst hem
      obtain ⟨k, hk, hdk⟩ := constructSeq_error_name xs e hs
      exact ⟨k, hk, by simp [nodeHasDupKey, hdk]⟩
  | map kvs =>
    cases hs : constructMapAux kvs [] with
    | ok mm => rw [constructNode, hs] at h; exact absurd h (by simp)
    | error e =>
      rw [constructNode, hs] at h
      have hem : e = m := by simpa using h
      subst hem
      obtain ⟨k, hk, hdk⟩ := constructMapAux_error_name kvs [] e hs
      refine ⟨k, hk, ?_⟩
      rcases hdk with hcnt | hkvs
      · simp only [List.map_nil, List.nil_append] at hcnt
        simp [nodeHasDupKey, hcnt]
      · simp [nodeHasDupKey, hkvs]

theorem constructSeq_error_name (xs : List Node) (m : String)
    (h : constructSeq xs = .error m) :
    ∃ k, m = dupKeyMsg k ∧ seqHasDupKey xs k = true := by
  cases xs with
  | nil => simp [constructSeq] at h
  | cons x xs =>
    cases hx : constructNode x with
    | error e =>
      rw [constructSeq, hx] at h
      have hem : e = m := by simpa using h
      subst hem
      obtain ⟨k, hk, hdk⟩ := constructNode_error_name x e hx
      exact ⟨k, hk, by simp [seqHasDupKey, hdk]⟩
    | ok v =>
      cases hxs : constructSeq xs with
      | error e =>
        rw [constructSeq, hx, hxs] at h
        have hem : e = m := by simpa using h
        subst hem
        obtain ⟨k, hk, hdk⟩ := constructSeq_error_name xs e hxs
        exact ⟨k, hk, by simp [seqHasDupKey, hdk]⟩
      | ok vs => rw [constructSeq, hx, hxs] at h; exact absurd h (by simp)

theorem constructMapAux_error_name (kvs : List (String × Node))
    (acc : List (String × YVal)) (m : String)
    (h : constructMapAux kvs acc = .error m) :
    ∃ k, m = dupKeyMsg k ∧
      (2 ≤ ((acc.map Prod.fst) ++ (kvs.map Prod.fst)).count k ∨
        kvsHasDupKey kvs k = true) := by
  cases kvs with
  | nil => simp [constructMapAux] at h
  | cons kv rest =>
    obtain ⟨k0, v⟩ := kv
    by_cases hmem : k0 ∈ acc.map Prod.fst
    · rw [constructMapAux, if_pos hmem] at h
      have hem : dupKeyMsg k0 = m := by simpa using h
      refine ⟨k0, hem.symm, Or.inl ?_⟩
      rw [List.count_append]
      have h1 : 1 ≤ (acc.map Prod.fst).count k0 := List.one_le_count_iff.mpr hmem
      have h2 : 1 ≤ (((k0, v) :: rest).map Prod.fst).count k0 := by
        simp [List.count_cons]
      omega
    · rw [constructMapAux, if_neg hmem] at h
      cases hv : constructNode v with
      | error e =>
        rw [hv] at h
        have hem : e = m := by simpa using h
        subst hem
        obtain ⟨k, hk, hdk⟩ := constructNode_error_name v e hv
        exact ⟨k, hk, Or.inr (by simp [kvsHasDupKey, hdk])⟩
      | ok val =>
        rw [hv] at h
        obtain ⟨k, hk, hdk⟩ := constructMapAux_error_name rest (acc ++ [(k0, val)]) m h
        refine ⟨k, hk, ?_⟩
        rcases hdk with hcnt | hkvs
        · refine Or.inl ?_
          simp only [List.map_append, List.map_cons, List.map_nil,
            List.count_append, List.count_cons, List.count_nil] at hcnt ⊢
          omega
        · exact Or.inr (by simp [kvsHasDupKey, hkvs])

end

/-- Claim C3: loading a document in which some mapping node, at any nesting
depth (including inside sequences), repeats a key always fails with a
duplicate-key error naming an offending key, and loading succeeds exactly
when no mapping anywhere repeats a key — it never silently keeps the last
value for a repeated key. -/
theorem claim_C3 (n : Node) :
    (exIsOk (constructNode n) = true ↔ hasDupNode n = false) ∧
    (hasDupNode n = true →
      ∃ k, constructNode n = .error (dupKeyMsg k) ∧ nodeHasDupKey n k = true) := by
  refine ⟨constructNode_ok_iff n, fun hd => ?_⟩
  cases hc : constructNode n with
  | ok v =>
    have := (constructNode_ok_iff n).mp (by simp [hc, exIsOk])
    rw [this] at hd
    exact absurd hd (by simp)
  | error m =>
    obtain ⟨k, hk, hdk⟩ := constructNode_error_name n m hc
    exact ⟨k, by rw [hk], hdk⟩

/-- Witness for C3 at a concrete document: a mapping nested inside a
sequence repeats the key `b`, and loading fails naming a duplicated key. -/
theorem claim_C3_witness :
    hasDupNode dupNode = true ∧
      ∃ k, constructNode dupNode = .error (dupKeyMsg k) ∧
        nodeHasDupKey dupNode k = true :=
  ⟨by decide, (claim_C3 dupNode).2 (by decide)⟩

/-! ## C1: failure to resolve with no index capability -/

/-- Claim C1 is refuted by the code: with no package-index capability
(`ament_index_python` unavailable) and no discoverable local package,
`resolve_path_substitutions` on `$(find-pkg-share demo_pkg)` leaves the
expression textually unchanged but returns an empty issue list even with
isolated mode off, where the spec — and the repository's own unit test,
which expects one issue mentioning `ament_index_python not available` —
require exactly one issue in non-isolated mode. -/
theorem claim_C1_code_bug :
    resolvePathSubstitutions noCapEnv "$(find-pkg-share demo_pkg)" dummyFile false
      = ("$(find-pkg-share demo_pkg)", []) ∧
    resolvePathSubstitutions noCapEnv "$(find-pkg-share demo_pkg)" dummyFile true
      = ("$(find-pkg-share demo_pkg)", []) := by
  constructor <;> decide

/-! ## C8: exit status of `check_files` -/

theorem validateFiles_nil (env : Env) (iso : Bool) :
    (validateFiles env [] iso).issues = [] := by
  simp [validateFiles, classifyFiles]

/-- Claim C8: `check_files` returns 0 exactly when no error-severity issue
was found — in particular an empty collected file list yields status 0 with
zero issues — and 1 exactly when at least one error-severity issue exists. -/
theorem claim_C8 (env : Env) (files : List PPath) (iso : Bool) :
    (checkFiles env files iso = 0 ↔ (validateFiles env files iso).error_count = 0) ∧
    (checkFiles env files iso = 1 ↔ 1 ≤ (validateFiles env files iso).error_count) ∧
    (files = [] → checkFiles env files iso = 0 ∧
      (validateFiles env files iso).issues = []) := by
  have hcases : ∀ l : List PPath, l = [] → (validateFiles env l iso).error_count = 0 := by
    intro l hl
    subst hl
    simp [ValidationResult.error_count, validateFiles_nil]
  by_cases hf : files = []
  · subst hf
    simp [checkFiles, hcases [] rfl, validateFiles_nil]
  · unfold checkFiles
    rw [if_neg hf]
    by_cases hz : (validateFiles env files iso).error_count = 0
    · simp [hz, hf]
    · have : 1 ≤ (validateFiles env files iso).error_count := Nat.one_le_iff_ne_zero.mpr hz
      simp [hz, hf, this]

/-- Witness for C8 at the empty file list: status 0 and zero issues. -/
theorem claim_C8_witness :
    checkFiles noCapEnv [] false = 0 ∧ (validateFiles noCapEnv [] false).issues = [] :=
  (claim_C8 noCapEnv [] false).2.2 rfl

/-! ## C9: every issue is an error -/

theorem replPkg_kinds (env : Env) (cur : PPath) (iso : Bool) (v : PkgVerb)
    (pkg : String) (matched : List Char) :
    ∀ i ∈ (replPkg env cur iso v pkg matched).2, i.kind = "error" := by
  intro i hi
  have hres : ∀ (resolver : Option (String → Option String)) (vs : String),
      i ∈ (if pkg.data.contains '$' then (("$(var ...)").data, ([] : List Issue))
        else
          match resolver with
          | none =>
            match env.localPkg pkg cur with
            | some p => ((pathToString p).data, [])
            | none => (matched, [])
          | some f =>
            match f pkg with
            | some path => (path.data, [])
            | none =>
              match env.localPkg pkg cur with
              | some p => ((pathToString p).data, [])
              | none =>
                if !iso then
                  (matched,
                    [mkErr cur ("Cannot resolve package " ++ sq ++ pkg ++ sq ++
                      " in " ++ vs ++ ": ")])
                else (matched, [])).2 → i.kind = "error" := by
    intro resolver vs hmem
    by_cases hc : '$' ∈ pkg.data
    · simp [hc] at hmem
    · cases resolver with
      | none =>
        cases hlp : env.localPkg pkg cur with
        | some p => simp [hc, hlp] at hmem
        | none => simp [hc, hlp] at hmem
      | some f =>
        cases hf : f pkg with
        | some path => simp [hc, hf] at hmem
        | none =>
          cases hlp : env.localPkg pkg cur with
          | some p => simp [hc, hf, hlp] at hmem
          | none =>
            cases iso with
            | true => simp [hc, hf, hlp] at hmem
            | false =>
              simp [hc, hf, hlp] at hmem
              rw [hmem]
              rfl
  cases v with
  | share => exact hres env.amentShare "find-pkg-share" hi
  | pfx => exact hres env.amentPfx "find-pkg-prefix" hi

theorem findPkgSubAux_kinds (env : Env) (cur : PPath) (iso : Bool) :
    ∀ fuel cs, ∀ i ∈ (findPkgSubAux env cur iso fuel cs).2, i.kind = "error" := by
  intro fuel
  induction fuel with
  | zero => intro cs i hi; simp [findPkgSubAux] at hi
  | succ fuel ih =>
    intro cs i hi
    match cs with
    | [] => simp [findPkgSubAux] at hi
    | c :: rest =>
      rw [findPkgSubAux] at hi
      cases hm : matchFindPkg (c :: rest) with
      | none =>
        rw [hm] at hi
        simp only at hi
        exact ih rest i hi
      | some t =>
        obtain ⟨v, pkg, matched, remainder⟩ := t
        rw [hm] at hi
        simp only at hi
        rcases hr : replPkg env cur iso v pkg matched with ⟨rep, iss⟩
        rcases hrec : findPkgSubAux env cur iso fuel remainder with ⟨tailRes, tailIss⟩
        rw [hr, hrec] at hi
        simp only at hi
        rcases List.mem_append.mp hi with h1 | h2
        · have := replPkg_kinds env cur iso v pkg matched i
          rw [hr] at this
          exact this h1
        · have := ih remainder i
          rw [hrec] at this
          exact this h2

theorem resolvePathSubstitutions_snd (env : Env) (expr : String) (cur : PPath)
    (iso : Bool) :
    (resolvePathSubstitutions env expr cur iso).2 =
      (findPkgSubAux env cur iso expr.data.length expr.data).2 := by
  unfold resolvePathSubstitutions
  rcases h : findPkgSubAux env cur iso expr.data.length expr.data with ⟨r, iss⟩
  simp [h]

theorem resolvePathSubstitutions_kinds (env : Env) (expr : String) (cur : PPath)
    (iso : Bool) :
    ∀ i ∈ (resolvePathSubstitutions env expr cur iso).2, i.kind = "error" := by
  intro i hi
  rw [resolvePathSubstitutions_snd] at hi
  exact findPkgSubAux_kinds env cur iso _ _ i hi

theorem checkLaunchSubstitutions_kinds (p : PPath) (data : YVal) :
    ∀ i ∈ checkLaunchSubstitutions p data, i.kind = "error" := by
  intro i hi
  unfold checkLaunchSubstitutions at hi
  rcases List.mem_flatMap.mp hi with ⟨v, _, hv⟩
  rcases List.mem_filterMap.mp hv with ⟨n, _, hn⟩
  split at hn
  · simp at hn
  · simp at hn
    rw [← hn]
    rfl

theorem includeIssues_kinds (env : Env) (p : PPath) (iso : Bool)
    (includeData : Option YVal) :
    ∀ i ∈ (includeIssues env p iso includeData).1, i.kind = "error" := by
  intro i hi
  cases includeData with
  | none => simp [includeIssues] at hi
  | some inc =>
    cases inc with
    | null => simp [includeIssues] at hi
    | bool b => simp [includeIssues] at hi
    | num n => simp [includeIssues] at hi
    | str s => simp [includeIssues] at hi
    | seq xs => simp [includeIssues] at hi
    | map incKvs =>
      cases hfv : ylookup incKvs "file" with
      | none => simp [includeIssues, hfv] at hi
      | some fv =>
        cases fv with
        | null => simp [includeIssues, hfv] at hi
        | bool b => simp [includeIssues, hfv] at hi
        | num n => simp [includeIssues, hfv] at hi
        | seq xs => simp [includeIssues, hfv] at hi
        | map m => simp [includeIssues, hfv] at hi
        | str fileValue =>
          rcases hr : resolvePathSubstitutions env fileValue p iso with ⟨resolved, extra⟩
          simp only [includeIssues, hfv, hr] at hi
          split at hi
          · exact resolvePathSubstitutions_kinds env fileValue p iso i (by rw [hr]; exact hi)
          · split at hi
            · simp only at hi
              rcases List.mem_append.mp hi with h1 | h2
              · exact resolvePathSubstitutions_kinds env fileValue p iso i (by rw [hr]; exact h1)
              · simp at h2
                rw [h2]
                rfl
            · exact resolvePathSubstitutions_kinds env fileValue p iso i (by rw [hr]; exact hi)

theorem paramIssues_kinds (env : Env) (p : PPath) (iso : Bool) (param : YVal) :
    ∀ i ∈ paramIssues env p iso param, i.kind = "error" := by
  intro i hi
  cases hpf : paramFromString param with
  | none => simp [paramIssues, hpf] at hi
  | some fromValue =>
    rcases hr : resolvePathSubstitutions env fromValue p iso with ⟨resolved, extra⟩
    simp only [paramIssues, hpf, hr] at hi
    split at hi
    · exact resolvePathSubstitutions_kinds env fromValue p iso i (by rw [hr]; exact hi)
    · split at hi
      · try simp only at hi
        rcases List.mem_append.mp hi with h1 | h2
        · exact resolvePathSubstitutions_kinds env fromValue p iso i (by rw [hr]; exact h1)
        · simp at h2
          rw [h2]
          rfl
      · exact resolvePathSubstitutions_kinds env fromValue p iso i (by rw [hr]; exact hi)

theorem nodeIssues_kinds (env : Env) (p : PPath) (iso : Bool)
    (nodeData : Option YVal) :
    ∀ i ∈ nodeIssues env p iso nodeData, i.kind = "error" := by
  intro i hi
  unfold nodeIssues at hi
  split at hi
  case _ nodeKvs =>
    split at hi
    case _ params =>
      rcases List.mem_flatMap.mp hi with ⟨param, _, hp⟩
      exact paramIssues_kinds env p iso param i hp
    case _ => simp at hi
  case _ => simp at hi

theorem checkLaunchSemantics_kinds (env : Env) (p : PPath) (data : YVal)
    (iso : Bool) :
    ∀ i ∈ checkLaunchSemantics env p data iso, i.kind = "error" := by
  intro i hi
  unfold checkLaunchSemantics at hi
  rcases List.mem_append.mp hi with h1 | h2
  · exact checkLaunchSubstitutions_kinds p data i h1
  · rcases List.mem_flatMap.mp h2 with ⟨e, _, he⟩
    rcases hinc : includeIssues env p iso e.2.2 with ⟨incIss, skip⟩
    rw [hinc] at he
    simp only at he
    rcases List.mem_append.mp he with h3 | h4
    · have := includeIssues_kinds env p iso e.2.2 i
      rw [hinc] at this
      exact this h3
    · split at h4
      · simp at h4
      · exact nodeIssues_kinds env p iso e.2.1 i h4

theorem checkConfigSemantics_kinds (env : Env) (p : PPath) (data : YVal)
    (iso : Bool) :
    ∀ i ∈ checkConfigSemantics env p data iso, i.kind = "error" := by
  intro i hi
  unfold checkConfigSemantics at hi
  rcases List.mem_flatMap.mp hi with ⟨value, _, hv⟩
  split at hv
  · rcases hr : resolvePathSubstitutions env value p iso with ⟨resolved, extra⟩
    rw [hr] at hv
    simp only at hv
    split at hv
    · exact resolvePathSubstitutions_kinds env value p iso i (by rw [hr]; exact hv)
    · split at hv
      · try simp only at hv
        rcases List.mem_append.mp hv with h1 | h2
        · exact resolvePathSubstitutions_kinds env value p iso i (by rw [hr]; exact h1)
        · simp at h2
          rw [h2]
          rfl
      · exact resolvePathSubstitutions_kinds env value p iso i (by rw [hr]; exact hv)
  · simp at hv

theorem validateWithSchema_kinds (check : YVal → Option SchemaErr) (data : YVal)
    (p : PPath) (name : String) :
    ∀ i ∈ validateWithSchema check data p name, i.kind = "error" := by
  intro i hi
  unfold validateWithSchema at hi
  split at hi
  · simp at hi
  · simp at hi
    rw [hi]
    rfl

theorem classifyFiles_kinds (env : Env) (files : List PPath) :
    ∀ i ∈ (classifyFiles env files).2.2, i.kind = "error" := by
  induction files with
  | nil => intro i hi; simp [classifyFiles] at hi
  | cons p rest ih =>
    intro i hi
    rw [classifyFiles] at hi
    rcases hc : classifyOne env p with ⟨oi, refs1, oiss⟩
    rcases hr : classifyFiles env rest with ⟨infos, refs, issues⟩
    rw [hc, hr] at hi
    simp only at hi
    rcases List.mem_append.mp hi with h1 | h2
    · unfold classifyOne at hc
      split at hc
      · cases hc
        simp at h1
        rw [h1]
        rfl
      · cases hc
        simp at h1
        rw [h1]
        rfl
      · cases hc
        simp at h1
    · apply ih
      rw [hr]
      exact h2

theorem secondPass_kinds (env : Env) (iso : Bool) (refs : List PPath)
    (info : FileInfo) :
    ∀ i ∈ (secondPass env iso refs info).2, i.kind = "error" := by
  intro i hi
  unfold secondPass at hi
  split at hi
  · simp only at hi
    rcases List.mem_append.mp hi with h1 | h2
    · exact validateWithSchema_kinds _ _ _ _ i h1
    · exact checkLaunchSemantics_kinds env _ _ iso i h2
  · simp only at hi
    split at hi
    · rcases List.mem_append.mp hi with h1 | h2
      · exact validateWithSchema_kinds _ _ _ _ i h1
      · exact checkConfigSemantics_kinds env _ _ iso i h2
    · simp at hi

theorem validateFiles_kinds (env : Env) (files : List PPath) (iso : Bool) :
    ∀ i ∈ (validateFiles env files iso).issues, i.kind = "error" := by
  intro i hi
  unfold validateFiles at hi
  rcases hc : classifyFiles env files with ⟨infos, refs, firstPassIssues⟩
  rw [hc] at hi
  simp only at hi
  rcases List.mem_append.mp hi with h1 | h2
  · have := classifyFiles_kinds env files i
    rw [hc] at this
    exact this h1
  · rcases List.mem_flatMap.mp h2 with ⟨pr, hpr, hin⟩
    rcases List.mem_map.mp hpr with ⟨info, _, hsp⟩
    rw [← hsp] at hin
    exact secondPass_kinds env iso refs info i hin

/-- Claim C9: every issue the validator constructs has kind `"error"` (the
declared warning severity is never used), so `error_count` is the total
number of issues and `error_files` is exactly the set of issue paths. -/
theorem claim_C9 (env : Env) (files : List PPath) (iso : Bool) :
    (∀ i ∈ (validateFiles env files iso).issues, i.kind = "error") ∧
    (validateFiles env files iso).error_count =
      (validateFiles env files iso).issues.length ∧
    (∀ p, p ∈ (validateFiles env files iso).error_files ↔
      p ∈ (validateFiles env files iso).issues.map Issue.path) := by
  have hk := validateFiles_kinds env files iso
  have hfilter : (validateFiles env files iso).issues.filter
      (fun i => i.kind = "error") = (validateFiles env files iso).issues := by
    apply List.filter_eq_self.mpr
    intro i hi
    simp [hk i hi]
  refine ⟨hk, ?_, ?_⟩
  · unfold ValidationResult.error_count
    rw [hfilter]
  · intro p
    unfold ValidationResult.error_files
    rw [hfilter, List.mem_dedup]

/-- Witness for C9 at a concrete run: the pipeline of the C4 fixture yields
issues, and the first one carries kind `"error"`. -/
theorem claim_C9_witness :
    (mkErr pB "YAML syntax error: boom").kind = "error" :=
  (claim_C9 envC4 [pA, pB] false).1 (mkErr pB "YAML syntax error: boom") (by decide)

/-! ## C10 and C4: pipeline counting and issue ordering -/

theorem classifyFiles_issues_eq (env : Env) (files : List PPath) :
    (classifyFiles env files).2.2 = files.filterMap (pass1Issue env) := by
  induction files with
  | nil => simp [classifyFiles]
  | cons p rest ih =>
    rw [classifyFiles, List.filterMap_cons]
    rcases hc : classifyOne env p with ⟨oi, refs1, oiss⟩
    rcases hr : classifyFiles env rest with ⟨infos, refs, issues⟩
    simp only
    rw [hr] at ih
    simp only at ih
    unfold classifyOne at hc
    cases hl : env.load p with
    | error e =>
      rw [hl] at hc
      cases hc
      simp [pass1Issue, hl, ih]
    | ok od =>
      cases od with
      | none =>
        rw [hl] at hc
        cases hc
        simp [pass1Issue, hl, ih]
      | some data =>
        rw [hl] at hc
        cases hc
        simp [pass1Issue, hl, ih]

theorem classifyFiles_infos_length (env : Env) (files : List PPath) :
    (classifyFiles env files).1.length = files.countP (fun p => loadedOk env p) := by
  induction files with
  | nil => simp [classifyFiles]
  | cons p rest ih =>
    rw [classifyFiles, List.countP_cons]
    rcases hc : classifyOne env p with ⟨oi, refs1, oiss⟩
    rcases hr : classifyFiles env rest with ⟨infos, refs, issues⟩
    simp only
    rw [hr] at ih
    simp only at ih
    unfold classifyOne at hc
    cases hl : env.load p with
    | error e =>
      rw [hl] at hc
      cases hc
      simp [loadedOk, hl, ih]
    | ok od =>
      cases od with
      | none =>
        rw [hl] at hc
        cases hc
        simp [loadedOk, hl, ih]
      | some data =>
        rw [hl] at hc
        cases hc
        simp [loadedOk, hl, ih]

theorem countP_launch_split (l : List FileInfo) :
    l.countP (fun i => i.is_launch) + l.countP (fun i => !i.is_launch) = l.length := by
  induction l with
  | nil => simp
  | cons i rest ih =>
    rw [List.countP_cons, List.countP_cons]
    cases h : i.is_launch <;> simp [h] <;> omega

theorem secondPass_flatMap (env : Env) (iso : Bool) (refs : List PPath)
    (files : List PPath) :
    (((classifyFiles env files).1.map (secondPass env iso refs)).flatMap Prod.snd)
      = files.flatMap (pass2Issues env iso refs) := by
  induction files with
  | nil => simp [classifyFiles]
  | cons p rest ih =>
    rw [classifyFiles, List.flatMap_cons]
    rcases hc : classifyOne env p with ⟨oi, refs1, oiss⟩
    rcases hr : classifyFiles env rest with ⟨infos, refsR, issues⟩
    simp only
    rw [hr] at ih
    simp only at ih
    unfold classifyOne at hc
    cases hl : env.load p with
    | error e =>
      rw [hl] at hc
      cases hc
      simp [pass2Issues, hl, ih]
    | ok od =>
      cases od with
      | none =>
        rw [hl] at hc
        cases hc
        simp [pass2Issues, hl, ih]
      | some data =>
        rw [hl] at hc
        cases hc
        simp [pass2Issues, hl, ih]

/-- Claim C10: `num_launch + num_config` counts exactly the input files that
parse to a non-empty document, and each file that fails to parse or is empty
contributes exactly one first-pass issue (and appears in neither count). -/
theorem claim_C10 (env : Env) (files : List PPath) (iso : Bool) :
    (validateFiles env files iso).num_launch + (validateFiles env files iso).num_config
        = files.countP (fun p => loadedOk env p) ∧
    (classifyFiles env files).2.2 = files.filterMap (pass1Issue env) ∧
    (classifyFiles env files).2.2.length = files.countP (fun p => !loadedOk env p) := by
  refine ⟨?_, classifyFiles_issues_eq env files, ?_⟩
  · unfold validateFiles
    rcases hc : classifyFiles env files with ⟨infos, refs, fIss⟩
    simp only
    have := classifyFiles_infos_length env files
    rw [hc] at this
    simp only at this
    rw [countP_launch_split infos, this]
  · rw [classifyFiles_issues_eq env files]
    induction files with
    | nil => simp
    | cons p rest ih =>
      rw [List.filterMap_cons, List.countP_cons]
      cases hl : env.load p with
      | error e => simp [pass1Issue, loadedOk, ih, hl]
      | ok od =>
        cases od with
        | none => simp [pass1Issue, loadedOk, ih, hl]
        | some data => simp [pass1Issue, loadedOk, ih, hl]

/-- Claim C4 as amended: the issue sequence of `validate_files` is all
first-pass issues (parse errors and empty documents) in file order, followed
by the per-file second-pass issues in file order; within one file the
second pass emits schema issues before semantic issues (visible in
`secondPass`/`pass2Issues`). -/
theorem claim_C4_amended (env : Env) (files : List PPath) (iso : Bool) :
    (validateFiles env files iso).issues =
      files.filterMap (pass1Issue env) ++
        files.flatMap (pass2Issues env iso (classifyFiles env files).2.1) := by
  have h1 := classifyFiles_issues_eq env files
  have h2 := secondPass_flatMap env iso (classifyFiles env files).2.1 files
  unfold validateFiles
  rcases hc : classifyFiles env files with ⟨infos, refs, fIss⟩
  rw [hc] at h1 h2
  simp only at h1 h2 ⊢
  rw [h1, h2]

/-- Counterexample to C4 as stated: with file `a/launch/x.yaml` parsing to a
launch document carrying an unknown substitution and the lexicographically
larger `b/launch/y.yaml` failing to parse, the parse issue of the larger
file precedes the issue of the smaller file in the result. -/
theorem claim_C4_counterexample :
    pathToString pA < pathToString pB ∧
      ((validateFiles envC4 [pA, pB] false).issues.map Issue.path) = [pB, pA] := by
  constructor
  · rw [String.lt_iff_toList_lt]
    decide
  · decide

/-! ## C2: parameter-config classification -/

theorem classifyFiles_infos_mem (env : Env) (files : List PPath) :
    ∀ info ∈ (classifyFiles env files).1,
      info.is_launch = isLaunchFile info.path info.data ∧
      info.contains_ros_params = containsRosParameters info.data := by
  induction files with
  | nil => intro info h; simp [classifyFiles] at h
  | cons p rest ih =>
    intro info h
    rw [classifyFiles] at h
    rcases hc : classifyOne env p with ⟨oi, refs1, oiss⟩
    rcases hr : classifyFiles env rest with ⟨infos, refs, issues⟩
    rw [hc, hr] at h
    simp only at h
    rcases List.mem_append.mp h with h1 | h2
    · unfold classifyOne at hc
      cases hl : env.load p with
      | error e =>
        rw [hl] at hc
        cases hc
        simp at h1
      | ok od =>
        cases od with
        | none =>
          rw [hl] at hc
          cases hc
          simp at h1
        | some data =>
          rw [hl] at hc
          cases hc
          simp at h1
          subst h1
          exact ⟨rfl, rfl⟩
    · have := ih info
      rw [hr] at this
      exact this h2

/-- Claim C2: after the second pass, a successfully parsed non-launch file
is classified as a parameter config exactly when some segment of its path is
`config` or `configs` and (its document contains the key `ros__parameters`
in some mapping at any depth, or its resolved absolute path is in the
pass-1 referenced-path set); in particular the flag is false for every file
outside a config directory regardless of content. -/
theorem claim_C2 (env : Env) (files : List PPath) (iso : Bool) :
    ∀ info ∈ validateFilesInfos env files iso, info.is_launch = false →
      (info.is_param_config = true ↔
        (isInConfigDir info.path = true ∧
          (containsRosParameters info.data = true ∨
            pathResolve env.cwd info.path ∈ (classifyFiles env files).2.1))) := by
  intro info hmem hlaunch
  unfold validateFilesInfos at hmem
  rcases hc : classifyFiles env files with ⟨infos, refs, fIss⟩
  rw [hc] at hmem
  simp only at hmem ⊢
  rcases List.mem_map.mp hmem with ⟨pr, hpr, hfst⟩
  rcases List.mem_map.mp hpr with ⟨info0, hinfo0, hsp⟩
  subst hfst
  have hinv := classifyFiles_infos_mem env files info0 (by rw [hc]; exact hinfo0)
  unfold secondPass at hsp
  by_cases hl : info0.is_launch
  · rw [if_pos hl] at hsp
    rw [← hsp] at hlaunch
    simp only at hlaunch
    rw [hlaunch] at hl
    exact absurd hl (by simp)
  · rw [if_neg hl] at hsp
    rw [← hsp]
    simp only
    simp [hinv.2, Bool.and_eq_true, Bool.or_eq_true, decide_eq_true_iff]

/-- Witness for C2: the config-directory file `config/a.yaml` whose document
nests `ros__parameters` is classified as a parameter config. -/
theorem claim_C2_witness :
    infoC2.is_param_config = true ↔
      (isInConfigDir infoC2.path = true ∧
        (containsRosParameters infoC2.data = true ∨
          pathResolve envC2.cwd infoC2.path ∈ (classifyFiles envC2 [pC]).2.1)) :=
  claim_C2 envC2 [pC] false infoC2
    (by
      have h : validateFilesInfos envC2 [pC] false = [infoC2] := rfl
      rw [h]
      exact List.mem_singleton.mpr rfl)
    rfl

/-! ## C5: unknown substitution names -/

theorem filter_map_unknown (f : String → Issue) (xs : List String) :
    (xs.filter (fun n => !allowedSub n)).map f =
      xs.filterMap (fun n => if allowedSub n then none else some (f n)) := by
  induction xs with
  | nil => simp
  | cons x xs ih =>
    rw [List.filterMap_cons]
    cases h : allowedSub x <;> simp [h, ih]

theorem checkLaunchSubstitutions_eq (p : PPath) (data : YVal) :
    checkLaunchSubstitutions p data =
      (unknownSubNames data).map (fun n => mkErr p (unknownSubMsg n)) := by
  unfold checkLaunchSubstitutions unknownSubNames
  induction walkValues data with
  | nil => simp
  | cons v vs ih =>
    rw [List.flatMap_cons, List.flatMap_cons, List.filter_append, List.map_append,
      filter_map_unknown, ih]

/-- Claim C5: each occurrence of a substitution verb outside the allowed set
in any string value of a launch document yields exactly one
unknown-substitution issue — one issue per occurrence, in scan order — and
`check_launch_semantics` emits these in both isolated and non-isolated mode
(they precede every other issue of the check). -/
theorem claim_C5 (env : Env) (p : PPath) (data : YVal) (iso : Bool) :
    checkLaunchSubstitutions p data =
      (unknownSubNames data).map (fun n => mkErr p (unknownSubMsg n)) ∧
    (checkLaunchSubstitutions p data).length = (unknownSubNames data).length ∧
    ∃ rest, checkLaunchSemantics env p data iso = checkLaunchSubstitutions p data ++ rest := by
  refine ⟨checkLaunchSubstitutions_eq p data, ?_, ⟨_, rfl⟩⟩
  rw [checkLaunchSubstitutions_eq p data, List.length_map]

/-! ## C7: reference collection is silent and normalising -/

theorem replPkg_isolated (env : Env) (cur : PPath) (v : PkgVerb) (pkg : String)
    (matched : List Char) : (replPkg env cur true v pkg matched).2 = [] := by
  have hres : ∀ (resolver : Option (String → Option String)) (vs : String),
      (if pkg.data.contains '$' then (("$(var ...)").data, ([] : List Issue))
        else
          match resolver with
          | none =>
            match env.localPkg pkg cur with
            | some p => ((pathToString p).data, [])
            | none => (matched, [])
          | some f =>
            match f pkg with
            | some path => (path.data, [])
            | none =>
              match env.localPkg pkg cur with
              | some p => ((pathToString p).data, [])
              | none =>
                if !true then
                  (matched,
                    [mkErr cur ("Cannot resolve package " ++ sq ++ pkg ++ sq ++
                      " in " ++ vs ++ ": ")])
                else (matched, [])).2 = [] := by
    intro resolver vs
    by_cases hc : '$' ∈ pkg.data
    · simp [hc]
    · cases resolver with
      | none =>
        cases hlp : env.localPkg pkg cur with
        | some p => simp [hc, hlp]
        | none => simp [hc, hlp]
      | some f =>
        cases hf : f pkg with
        | some path => simp [hc, hf]
        | none =>
          cases hlp : env.localPkg pkg cur with
          | some p => simp [hc, hf, hlp]
          | none => simp [hc, hf, hlp]
  cases v with
  | share => exact hres env.amentShare "find-pkg-share"
  | pfx => exact hres env.amentPfx "find-pkg-prefix"

theorem findPkgSubAux_isolated (env : Env) (cur : PPath) :
    ∀ fuel cs, (findPkgSubAux env cur true fuel cs).2 = [] := by
  intro fuel
  induction fuel with
  | zero => intro cs; simp [findPkgSubAux]
  | succ fuel ih =>
    intro cs
    match cs with
    | [] => simp [findPkgSubAux]
    | c :: rest =>
      rw [findPkgSubAux]
      cases hm : matchFindPkg (c :: rest) with
      | none =>
        simp only
        exact ih rest
      | some t =>
        obtain ⟨v, pkg, matched, remainder⟩ := t
        simp only
        rcases hr : replPkg env cur true v pkg matched with ⟨rep, iss⟩
        rcases hrec : findPkgSubAux env cur true fuel remainder with ⟨tailRes, tailIss⟩
        simp only
        have h1 : iss = [] := by
          have := replPkg_isolated env cur v pkg matched
          rw [hr] at this
          exact this
        have h2 : tailIss = [] := by
          have := ih remainder
          rw [hrec] at this
          exact this
        simp [h1, h2]

theorem resolvePathSubstitutions_isolated (env : Env) (s : String) (f : PPath) :
    (resolvePathSubstitutions env s f true).2 = [] := by
  rw [resolvePathSubstitutions_snd]
  exact findPkgSubAux_isolated env f _ _

theorem all_dropLast {P : String → Bool} (l : List String)
    (h : l.all P = true) : l.dropLast.all P = true := by
  rw [List.all_eq_true] at h ⊢
  intro x hx
  exact h x (List.Sublist.subset (List.dropLast_sublist l) hx)

theorem normSegs_ok (segs : List String) :
    (normSegs segs).all (fun s => s ≠ "" && s ≠ "." && s ≠ "..") = true := by
  suffices h : ∀ acc, acc.all (fun s => s ≠ "" && s ≠ "." && s ≠ "..") = true →
      ((segs.foldl (fun acc seg =>
        if seg = ".." then acc.dropLast
        else if seg = "." || seg = "" then acc
        else acc ++ [seg]) acc).all (fun s => s ≠ "" && s ≠ "." && s ≠ "..")) = true by
    exact h [] (by simp)
  induction segs with
  | nil => intro acc hacc; simpa using hacc
  | cons seg rest ih =>
    intro acc hacc
    rw [List.foldl_cons]
    by_cases h1 : seg = ".."
    · exact ih _ (by rw [if_pos h1]; exact all_dropLast acc hacc)
    · by_cases h2 : seg = "." ∨ seg = ""
      · refine ih _ ?_
        rw [if_neg h1, if_pos (by rcases h2 with h2 | h2 <;> simp [h2])]
        exact hacc
      · push_neg at h2
        refine ih _ ?_
        rw [if_neg h1, if_neg (by simp [h2.1, h2.2])]
        rw [List.all_append, hacc]
        simp [h1, h2.1, h2.2]

theorem pathResolve_normalized (cwd : List String) (p : PPath) :
    isNormalizedAbs (pathResolve cwd p) = true := by
  unfold isNormalizedAbs
  rw [Bool.and_eq_true]
  exact ⟨rfl, normSegs_ok _⟩

/-- Claim C7: `collect_config_references_from_launch` is total and silent —
placeholder resolution in silenced mode never yields an issue — and every
collected path comes from a `node.param[].from` string whose resolved form
contains no `$(`, resolved relative to the launch file into an absolute,
normalised path. -/
theorem claim_C7 (env : Env) (p : PPath) (data : YVal) :
    (∀ s f, (resolvePathSubstitutions env s f true).2 = []) ∧
    (∀ q ∈ collectConfigReferencesFromLaunch env p data,
      isNormalizedAbs q = true ∧
      ∃ s ∈ paramFromStrings data,
        strContains (resolvePathSubstitutions env s p true).1 "$(" = false ∧
        q = pathResolve env.cwd
          (makePathRelativeToFile env.cwd (resolvePathSubstitutions env s p true).1 p)) := by
  refine ⟨fun s f => resolvePathSubstitutions_isolated env s f, ?_⟩
  intro q hq
  unfold collectConfigReferencesFromLaunch at hq
  rcases List.mem_flatMap.mp hq with ⟨e, he, hqe⟩
  obtain ⟨entry, nd, inc⟩ := e
  simp only at hqe
  cases nd with
  | none => simp at hqe
  | some yv =>
    cases yv with
    | null => simp at hqe
    | bool b => simp at hqe
    | num n => simp at hqe
    | str s => simp at hqe
    | seq xs => simp at hqe
    | map nodeKvs =>
      try simp only at hqe
      cases hpl : ylookup nodeKvs "param" with
      | none => rw [hpl] at hqe; simp at hqe
      | some pv =>
        cases pv with
        | null => rw [hpl] at hqe; simp at hqe
        | bool b => rw [hpl] at hqe; simp at hqe
        | num n => rw [hpl] at hqe; simp at hqe
        | str s => rw [hpl] at hqe; simp at hqe
        | map m => rw [hpl] at hqe; simp at hqe
        | seq params =>
          rw [hpl] at hqe
          simp only at hqe
          rcases List.mem_filterMap.mp hqe with ⟨param, hparam, hf⟩
          cases hpf : paramFromString param with
          | none => rw [hpf] at hf; simp at hf
          | some fv =>
            rw [hpf] at hf
            simp only at hf
            split at hf
            · simp at hf
            · rename_i hcond
              have hq' : q = pathResolve env.cwd
                  (makePathRelativeToFile env.cwd
                    (resolvePathSubstitutions env fv p true).1 p) := by
                have := hf
                simp at this
                exact this.symm
              refine ⟨by rw [hq']; exact pathResolve_normalized _ _, fv, ?_, ?_, hq'⟩
              · unfold paramFromStrings
                refine List.mem_flatMap.mpr ⟨(entry, some (.map nodeKvs), inc), he, ?_⟩
                simp only [hpl]
                exact List.mem_filterMap.mpr ⟨param, hparam, hpf⟩
              · have hcond2 : (strContains (resolvePathSubstitutions env fv p true).1 "$(var" ||
                    strContains (resolvePathSubstitutions env fv p true).1 "$(") = false := by
                  simpa using hcond
                exact (Bool.or_eq_false_iff.mp hcond2).2

/-- Witness for C7: the concrete launch document `dataL` collects exactly
the normalised absolute reference `/ws/config/p.yaml`. -/
theorem claim_C7_witness :
    isNormalizedAbs qC7 = true ∧
      ∃ s ∈ paramFromStrings dataL,
        strContains (resolvePathSubstitutions envC7 s pL true).1 "$(" = false ∧
        qC7 = pathResolve envC7.cwd
          (makePathRelativeToFile envC7.cwd
            (resolvePathSubstitutions envC7 s pL true).1 pL) :=
  (claim_C7 envC7 pL dataL).2 qC7 (by decide)

/-! ## C6: the fuzzy path suggester -/

theorem maxScore_cons (p : String × Rat) (l : List (String × Rat)) :
    maxScore (p :: l) = max p.2 (maxScore l) := rfl

theorem foldBest_le (dir : PPath) (l : List (String × Rat)) (s : Rat)
    (c : Option PPath) (h : maxScore l ≤ s) : foldBest dir l s c = (s, c) := by
  induction l generalizing s c with
  | nil => rfl
  | cons p rest ih =>
    rw [maxScore_cons] at h
    rw [foldBest, if_neg (not_lt.mpr (le_trans (le_max_left _ _) h))]
    exact ih s c (le_trans (le_max_right _ _) h)

theorem maxScore_attained (l : List (String × Rat)) (h : 0 < maxScore l) :
    ∃ p ∈ l, p.2 = maxScore l := by
  induction l with
  | nil => simp [maxScore] at h
  | cons p rest ih =>
    rw [maxScore_cons] at h ⊢
    rcases le_or_lt (maxScore rest) p.2 with hle | hgt
    · exact ⟨p, List.mem_cons_self p rest, (max_eq_left hle).symm⟩
    · have h0 : 0 < maxScore rest := by
        rw [max_eq_right (le_of_lt hgt)] at h
        exact h
      obtain ⟨p₀, hmem, heq⟩ := ih h0
      exact ⟨p₀, List.mem_cons_of_mem p hmem,
        by rw [max_eq_right (le_of_lt hgt)]; exact heq⟩

theorem foldBest_gt (dir : PPath) (l : List (String × Rat)) (s : Rat)
    (c : Option PPath) (p₀ : String × Rat) (h : s < maxScore l)
    (hf : l.find? (fun q => decide (q.2 = maxScore l)) = some p₀) :
    foldBest dir l s c = (maxScore l, some (childPath dir p₀.1)) := by
  induction l generalizing s c with
  | nil => simp at hf
  | cons p rest ih =>
    rw [foldBest]
    by_cases hsp : s < p.2
    · rw [if_pos hsp]
      rcases le_or_lt (maxScore rest) p.2 with hle | hgt
      · have hmax : maxScore (p :: rest) = p.2 := by
          rw [maxScore_cons]
          exact max_eq_left hle
        have hpred : decide (p.2 = maxScore (p :: rest)) = true := by simp [hmax]
        simp only [List.find?] at hf
        rw [hpred] at hf
        have hp₀ : p₀ = p := by
          have := hf
          simp at this
          exact this.symm
        rw [hp₀, hmax]
        exact foldBest_le dir rest p.2 (some (childPath dir p.1)) hle
      · have hmax : maxScore (p :: rest) = maxScore rest := by
          rw [maxScore_cons]
          exact max_eq_right (le_of_lt hgt)
        have hpred : decide (p.2 = maxScore (p :: rest)) = false := by
          simp [hmax]
          exact ne_of_lt hgt
        simp only [List.find?] at hf
        rw [hpred] at hf
        rw [hmax] at hf ⊢
        exact ih p.2 (some (childPath dir p.1)) hgt hf
    · rw [if_neg hsp]
      push_neg at hsp
      have hgt : s < maxScore rest := by
        rw [maxScore_cons] at h
        rcases lt_max_iff.mp h with h1 | h2
        · exact absurd h1 (not_lt.mpr hsp)
        · exact h2
      have hmax : maxScore (p :: rest) = maxScore rest := by
        rw [maxScore_cons]
        exact max_eq_right (le_trans hsp (le_of_lt hgt))
      have hpred : decide (p.2 = maxScore (p :: rest)) = false := by
        simp [hmax]
        exact ne_of_lt (lt_of_le_of_lt hsp hgt)
      simp only [List.find?] at hf
      rw [hpred] at hf
      rw [hmax] at hf ⊢
      exact ih s c hgt hf

theorem fold_eq_foldBest (fs : FS) (dir : PPath) (tl : String) (rd : Bool)
    (entries : List String) (s : Rat) (c : Option PPath) :
    entries.foldl (fun (acc : Rat × Option PPath) n =>
      if (if rd then fs.kind (childPath dir n) = some FKind.dir
          else fs.kind (childPath dir n) = some FKind.file) then
        (if acc.1 < smRatio tl (lowerStr n) then
          (smRatio tl (lowerStr n), some (childPath dir n))
        else acc)
      else acc) (s, c) =
    foldBest dir (candScores fs dir tl rd entries) s c := by
  induction entries generalizing s c with
  | nil => simp [candScores, foldBest]
  | cons n rest ih =>
    rw [List.foldl_cons]
    unfold candScores
    rw [List.filterMap_cons]
    by_cases hok : (if rd then fs.kind (childPath dir n) = some FKind.dir
        else fs.kind (childPath dir n) = some FKind.file)
    · rw [if_pos hok, if_pos hok]
      simp only
      by_cases hsc : s < smRatio tl (lowerStr n)
      · rw [if_pos hsc, foldBest, if_pos hsc]
        exact ih _ _
      · rw [if_neg hsc, foldBest, if_neg hsc]
        exact ih _ _
    · rw [if_neg hok, if_neg hok]
      exact ih _ _

theorem bestMatchInDir_eq (fs : FS) (dir : PPath) (t : String) (rd : Bool)
    (entries : List String) (h : fs.listDir dir = some entries) :
    bestMatchInDir fs dir t rd =
      (firstBestQualifying (candScores fs dir (lowerStr t) rd entries)).map
        (fun n => childPath dir n) := by
  unfold bestMatchInDir
  rw [h]
  simp only
  rw [fold_eq_foldBest]
  rcases le_or_lt (maxScore (candScores fs dir (lowerStr t) rd entries)) 0 with h0 | h0
  · rw [foldBest_le dir _ 0 none h0]
    have hth : ¬ similarityThreshold ≤ maxScore (candScores fs dir (lowerStr t) rd entries) := by
      intro hth
      have : similarityThreshold ≤ (0 : Rat) := le_trans hth h0
      norm_num [similarityThreshold] at this
    unfold firstBestQualifying
    rw [if_neg hth]
    rfl
  · rcases hfind : (candScores fs dir (lowerStr t) rd entries).find?
        (fun q => decide (q.2 = maxScore (candScores fs dir (lowerStr t) rd entries)))
        with _ | p₁
    · exfalso
      obtain ⟨p₀, hp₀mem, hp₀eq⟩ := maxScore_attained _ h0
      have := List.find?_eq_none.mp hfind p₀ hp₀mem
      simp [hp₀eq] at this
    · rw [foldBest_gt dir _ 0 none p₁ h0 hfind]
      simp only
      unfold firstBestQualifying
      by_cases hth : similarityThreshold ≤ maxScore (candScores fs dir (lowerStr t) rd entries)
      · rw [if_pos hth, if_pos hth, hfind]
        rfl
      · rw [if_neg hth, if_neg hth]
        rfl

theorem walkUpAux_none (fs : FS) (isAbs : Bool) (revSegs acc : List String)
    (h : ∀ m, fs.kind ⟨isAbs, revSegs.reverse.take m⟩ ≠ some .dir) :
    walkUpAux fs isAbs revSegs acc = none := by
  induction revSegs generalizing acc with
  | nil =>
    rw [walkUpAux]
    rw [if_neg (by simpa using h 0)]
  | cons n rest ih =>
    rw [walkUpAux]
    rw [if_neg (by
      have := h (n :: rest).reverse.length
      rwa [List.take_length] at this)]
    apply ih
    intro m
    rcases le_or_lt m rest.reverse.length with hm | hm
    · have := h m
      rwa [List.reverse_cons, List.take_append_of_le_length hm] at this
    · have := h rest.reverse.length
      rw [List.reverse_cons, List.take_append_of_le_length le_rfl,
        List.take_length] at this
      rwa [List.take_of_length_le (le_of_lt hm)]

theorem walkUpAux_unfold (fs : FS) (isAbs : Bool) (revSegs acc : List String) :
    walkUpAux fs isAbs revSegs acc =
      if fs.kind ⟨isAbs, revSegs.reverse⟩ = some FKind.dir then
        some (⟨isAbs, revSegs.reverse⟩, acc)
      else
        match revSegs with
        | [] => none
        | n :: rest => walkUpAux fs isAbs rest (n :: acc) := by
  cases revSegs <;> rfl

theorem suggest_parent_case (fs : FS) (target : PPath)
    (h0 : target.segs ≠ []) (h1 : fs.kind target ≠ some .dir)
    (h2 : fs.kind target.parent = some .dir) :
    suggestSimilarPath fs target = bestMatchInDir fs target.parent target.name false := by
  rcases (List.eq_nil_or_concat target.segs) with hnil | ⟨init, nm, hseg⟩
  · exact absurd hnil h0
  · rw [List.concat_eq_append] at hseg
    have hparent : target.parent = ⟨target.isAbs, init⟩ := by
      unfold PPath.parent
      rw [hseg, List.dropLast_concat]
    have hname : target.name = nm := by
      unfold PPath.name
      rw [hseg]
      simp
    have hwalk : walkUpAux fs target.isAbs target.segs.reverse [] =
        some (⟨target.isAbs, init⟩, [nm]) := by
      rw [hseg, List.reverse_append, List.reverse_singleton]
      simp only [List.singleton_append]
      rw [walkUpAux]
      rw [if_neg (by
        rw [List.reverse_cons, List.reverse_reverse, ← hseg]
        intro hcon
        exact h1 (by rw [show target = ⟨target.isAbs, target.segs⟩ from rfl]; exact hcon))]
      show walkUpAux fs target.isAbs init.reverse [nm] =
        some (⟨target.isAbs, init⟩, [nm])
      rw [walkUpAux_unfold]
      rw [List.reverse_reverse]
      rw [if_pos (by rw [← hparent]; exact h2)]
    have hstep : suggestSimilarPath fs target =
        (if [nm] = ([] : List String) then none
          else downWalk fs ⟨target.isAbs, init⟩ [nm]) := by
      unfold suggestSimilarPath
      rw [hwalk]
    rw [hstep, if_neg (by simp), downWalk]
    rw [if_pos (by rw [← hparent]; exact h2)]
    rw [hparent, hname]
    have harg : (decide (([] : List String) ≠ [])) = false := rfl
    cases hb : bestMatchInDir fs ⟨target.isAbs, init⟩ nm (decide (([] : List String) ≠ [])) with
    | none =>
      rw [harg] at hb
      exact hb.symm
    | some m =>
      rw [harg] at hb
      exact hb.symm

/-- Claim C6: `suggest_similar_path` on a non-existing target whose parent
directory exists returns the first sibling file attaining the maximum
similarity score to the target name when that maximum reaches the 0.5
threshold (ties broken by first-encountered directory order), and nothing
when the maximum falls below the threshold or no candidate qualifies; on a
target none of whose ancestors exists as a directory it returns nothing. -/
theorem claim_C6 (fs : FS) (target : PPath) :
    (∀ entries, fs.kind target = none → target.segs ≠ [] →
      fs.kind target.parent = some .dir →
      fs.listDir target.parent = some entries →
      suggestSimilarPath fs target =
        (firstBestQualifying
          (candScores fs target.parent (lowerStr target.name) false entries)).map
          (fun n => childPath target.parent n)) ∧
    ((∀ m, fs.kind ⟨target.isAbs, target.segs.take m⟩ ≠ some .dir) →
      suggestSimilarPath fs target = none) := by
  constructor
  · intro entries hnone hne hparent hlist
    rw [suggest_parent_case fs target hne (by rw [hnone]; simp) hparent]
    exact bestMatchInDir_eq fs target.parent target.name false entries hlist
  · intro h
    unfold suggestSimilarPath
    rw [walkUpAux_none fs target.isAbs target.segs.reverse []
      (by intro m; rw [List.reverse_reverse]; exact h m)]

/-- Witness for C6: on the filesystem with directory `/d` holding the file
`ac`, the missing `/d/ab` gets the characterised suggestion; on the empty
filesystem every suggestion fails. -/
theorem claim_C6_witness :
    (suggestSimilarPath fsC6 targetC6 =
      (firstBestQualifying
        (candScores fsC6 targetC6.parent (lowerStr targetC6.name) false ["ac"])).map
        (fun n => childPath targetC6.parent n)) ∧
    suggestSimilarPath emptyFS targetC6 = none :=
  ⟨(claim_C6 fsC6 targetC6).1 ["ac"] (by decide) (by decide) (by decide) (by decide),
   (claim_C6 emptyFS targetC6).2 (fun m => by simp [emptyFS])⟩

end LCV
